import Mathlib

set_option maxRecDepth 100000

/-!
# Verification of the changelog parsing / validation / autofix engine

This file gives a shallow embedding, in Lean 4, of the core of the
`changelog-utils` repository: the line-classification state machine in
`src/single_file/changelog.rs`, the per-construct parsers
(`src/single_file/release.rs`, `src/single_file/change_type.rs`,
`src/single_file/entry.rs`), the shared checkers (`src/common/entry.rs`),
the escape-directive recognizer (`src/escapes.rs`) and the version
comparison (`src/version.rs`), together with theorems settling the
specification claims about them.

Modelling conventions:
* Rust `&str` values are modelled as `List Char` (`Str`).  Character
  classification (`is_whitespace`, `is_alphabetic`, case mapping) is
  modelled on the ASCII fragment, which is the fragment exercised by the
  grammar classes of the source (`[a-zA-Z0-9-]`, `\d`, literal markers).
* The concrete regular expressions of the source are hand-compiled into
  deterministic `List Char` parsers reproducing the leftmost-first,
  greedy-with-backtracking capture semantics of the `regex` crate on the
  fragments used (each compilation step is documented at the definition).
* Configured spelling patterns (`expected_spellings`) and change-type
  names are modelled as literal strings, matched case-insensitively;
  this is the regex fragment used by the repository's configurations.
* Rust panics (`expect`/`unwrap` failures, index underflow) are modelled
  as a distinguished `panic` result; `Result::Err` as `err`/`Except.error`.
-/

abbrev Str : Type := List Char

def str (s : String) : Str := s.data

/-- Rust `char::is_whitespace` on the ASCII fragment. -/
def isWsChar (c : Char) : Bool :=
  c = ' ' || c = '\t' || c = '\n' || c = '\r'

/-- ASCII digit test (`\d` in the source regexes). -/
def isDigitChar (c : Char) : Bool :=
  '0' ≤ c && c ≤ '9'

/-- The entry category class `[a-zA-Z0-9-]`. -/
def isCatChar (c : Char) : Bool :=
  c.isAlpha || isDigitChar c || c = '-'

/-- The change-type name class `[a-zA-Z0-9- ]`. -/
def isNameChar (c : Char) : Bool :=
  c.isAlpha || isDigitChar c || c = '-' || c = ' '

/-- ASCII lower-casing of a character (used for case-insensitive matching
and for Rust `to_lowercase` on the ASCII fragment). -/
def lowerChar (c : Char) : Char := c.toLower

/-- ASCII upper-casing (`char::to_ascii_uppercase`). -/
def upperChar (c : Char) : Char := c.toUpper

def toLowerStr (s : Str) : Str := s.map lowerChar

/-- `str::trim` (both ends, whitespace). -/
def trimStr (s : Str) : Str :=
  ((s.dropWhile isWsChar).reverse.dropWhile isWsChar).reverse

/-- Numeric value of a digit string (no sign handling). -/
def natOfDigits (s : Str) : Nat :=
  s.foldl (fun a c => a * 10 + (c.toNat - 48)) 0

/-- Decimal rendering of a `Nat`, as the character list of `Nat.repr`. -/
def natDigits (n : Nat) : Str := (Nat.repr n).data

/-- Case-sensitive occurrence of `p` at index `i` of `s`. -/
def occursAt (p s : Str) (i : Nat) : Bool :=
  i + p.length ≤ s.length && (s.drop i).take p.length = p

/-- Case-insensitive occurrence of `p` at index `i` of `s`. -/
def ciOccursAt (p s : Str) (i : Nat) : Bool :=
  i + p.length ≤ s.length && toLowerStr ((s.drop i).take p.length) = toLowerStr p

/-- `Regex::is_match` for a literal pattern: some occurrence anywhere. -/
def containsSub (p s : Str) : Bool :=
  (List.range (s.length + 1)).any (occursAt p s)

/-- Case-insensitive substring containment. -/
def ciContainsSub (p s : Str) : Bool :=
  (List.range (s.length + 1)).any (ciOccursAt p s)

/-- The characters of `s` with indices in `[a, b)`. -/
def sliceStr (s : Str) (a b : Nat) : Str := (s.take b).drop a

/-- Rust `str::split(sep)` (never returns an empty list). -/
def splitOnChar (sep : Char) : Str → List Str
  | [] => [[]]
  | c :: rest =>
    match splitOnChar sep rest with
    | [] => if c = sep then [[], []] else [[c]]
    | h :: t => if c = sep then [] :: h :: t else (c :: h) :: t

/-- Rust `str::parse::<u64>()`: optional leading `+`, all digits, value
below `2^64`. -/
def parseU64 (s : Str) : Option Nat :=
  let core := match s with
    | '+' :: rest => rest
    | _ => s
  if core.isEmpty then none
  else if core.all isDigitChar then
    let n := natOfDigits core
    if n < 2 ^ 64 then some n else none
  else none

/-- Rust `str::parse::<u8>()` restricted to all-digit inputs (the version
parser only feeds it regex captures of `\d+`): value must fit in 8 bits. -/
def parseU8 (s : Str) : Option Nat :=
  if s.isEmpty then none
  else if s.all isDigitChar then
    let n := natOfDigits s
    if n ≤ 255 then some n else none
  else none

/-! ## Version comparison (`src/version.rs`) -/

/-- `Version` from `src/version.rs`; the `u8` fields are modelled as `Nat`
with the 8-bit bound enforced by the parser. -/
structure Version where
  major : Nat
  minor : Nat
  patch : Nat
  rcVersion : Option Nat
deriving DecidableEq

/-- `Version::gt` from `src/version.rs`, translated clause by clause. -/
def Version.gt (self other : Version) : Bool :=
  if self.major > other.major then true
  else if self.major < other.major then false
  else if self.minor > other.minor then true
  else if self.minor < other.minor then false
  else if self.patch > other.patch then true
  else if self.patch < other.patch then false
  else
    match self.rcVersion with
    | some v =>
      match other.rcVersion with
      | some vOther => v > vOther
      | none => false
    | none => other.rcVersion.isSome

inductive VersionError where
  | noInteger
  | noMatchFound
deriving DecidableEq

instance {e a : Type} [DecidableEq e] [DecidableEq a] : DecidableEq (Except e a) := fun x y =>
  match x, y with
  | .error u, .error v =>
    if h : u = v then .isTrue (by rw [h]) else .isFalse (by simp [h])
  | .ok u, .ok v =>
    if h : u = v then .isTrue (by rw [h]) else .isFalse (by simp [h])
  | .error _, .ok _ => .isFalse (by simp)
  | .ok _, .error _ => .isFalse (by simp)

/-- The tail `(-rc(\d+))*$` of the version regex: the remainder must be a
(possibly empty) sequence of `-rc<digits>` blocks; the capture is the digit
string of the last block.  Returns `none` if the remainder is not such a
sequence.  Fuel recursion (the fuel is an upper bound on the length). -/
def rcBlocks : Nat → Str → Option (Option Str)
  | _, [] => some none
  | 0, _ => none
  | fuel + 1, s =>
    match s with
    | '-' :: 'r' :: 'c' :: rest =>
      let ds := rest.takeWhile isDigitChar
      if ds.isEmpty then none
      else
        match rcBlocks fuel (rest.dropWhile isDigitChar) with
        | some none => some (some ds)
        | some (some later) => some (some later)
        | none => none
    | _ => none

/-- The capture step of the version regex
`^v(?P<major>\d+)\.(?P<minor>\d+)\.(?P<patch>\d+)(-rc(?P<rc>\d+))*$`:
returns the three digit captures and the (last) rc digit capture.  Each
`\d+` is greedy and deterministic (the following literal is not a digit). -/
def versionMatch (version : Str) : Option (Str × Str × Str × Option Str) :=
  match version with
  | 'v' :: r0 =>
    match r0.takeWhile isDigitChar, r0.dropWhile isDigitChar with
    | [], _ => none
    | d1, '.' :: r2 =>
      match r2.takeWhile isDigitChar, r2.dropWhile isDigitChar with
      | [], _ => none
      | d2, '.' :: r4 =>
        match r4.takeWhile isDigitChar, r4.dropWhile isDigitChar with
        | [], _ => none
        | d3, r5 =>
          match rcBlocks r5.length r5 with
          | none => none
          | some rcDigits => some (d1, d2, d3, rcDigits)
      | _, _ => none
    | _, _ => none
  | _ => none

/-- `version::parse` from `src/version.rs`: the regex capture step followed
by `u8` parses of every captured component (overflow is `NoInteger`). -/
def versionParse (version : Str) : Except VersionError Version :=
  match versionMatch version with
  | none => .error .noMatchFound
  | some (d1, d2, d3, rcDigits) =>
    match parseU8 d1, parseU8 d2, parseU8 d3 with
    | some ma, some mi, some pa =>
      match rcDigits with
      | none => .ok ⟨ma, mi, pa, none⟩
      | some ds =>
        match parseU8 ds with
        | some rc => .ok ⟨ma, mi, pa, some rc⟩
        | none => .error .noInteger
    | _, _, _ => .error .noInteger

/-! ## Configuration (`src/config/config.rs`, consumed fragment) -/

/-- One configured change type (`{long, short}` pair). -/
structure CTConfig where
  short : Str
  long : Str
deriving DecidableEq

/-- The configuration fragment consumed by the parsing engine.  The
`BTreeMap` of expected spellings is modelled as its key-ordered
association list (the iteration order used by `check_spelling`). -/
structure Config where
  categories : List Str
  changeTypes : List CTConfig
  expectedSpellings : List (Str × Str)
  legacyVersion : Option Str
  targetRepo : Str
deriving DecidableEq

/-- `Config::has_legacy_version`. -/
def Config.hasLegacyVersion (c : Config) : Bool := c.legacyVersion.isSome

/-! ## Shared checkers (`src/common/entry.rs`) -/

/-- `check_category`: lower-case the value, flag a case change, flag an
unknown category; never fails. -/
def checkCategory (cfg : Config) (category : Str) : Str × List Str :=
  let fixed := toLowerStr category
  let p1 : List Str :=
    if toLowerStr category ≠ category then
      [str "category should be lowercase: (" ++ category ++ str ")"]
    else []
  let p2 : List Str :=
    if ¬ cfg.categories.contains fixed then
      [str "invalid change category: (" ++ category ++ str ")"]
    else []
  (fixed, p1 ++ p2)

/-- `check_link`: rebuild the canonical PR link; flag a wrong repository
prefix and a mismatched trailing PR number.  The source calls
`split_link.last().parse::<u64>().expect(..)`: a non-numeric trailing
segment panics, modelled as `none`. -/
def checkLink (cfg : Config) (link : Str) (prNumber : Nat) : Option (Str × List Str) :=
  let fixed := cfg.targetRepo ++ str "/pull/" ++ natDigits prNumber
  let p1 : List Str :=
    if ¬ cfg.targetRepo.isPrefixOf link then
      [str "PR link points to wrong repository: " ++ link]
    else []
  match parseU64 ((splitOnChar '/' link).getLastD []) with
  | none => none
  | some containedPrNumber =>
    let p2 : List Str :=
      if containedPrNumber ≠ prNumber then
        [str "PR link is not matching PR number " ++ natDigits prNumber ++
          str ": '" ++ link ++ str "'"]
      else []
    some (fixed, p1 ++ p2)

/-- The code-span guard of `get_spelling_match`: the regex
`` `[^`]*(pattern)[^`]*` `` (case-insensitive) matches somewhere.  For a
backtick-free literal pattern this holds exactly when a pair of
consecutive backticks encloses a case-insensitive occurrence of the
pattern. -/
def backtickPositions (s : Str) : List Nat :=
  (List.range s.length).filter (fun i => s.getD i ' ' = '`')

def consecPairs : List Nat → List (Nat × Nat)
  | a :: b :: rest => (a, b) :: consecPairs (b :: rest)
  | _ => []

def codeSpanHit (p s : Str) : Bool :=
  (consecPairs (backtickPositions s)).any (fun q => ciContainsSub p (sliceStr s (q.1 + 1) q.2))

/-- Isolated-word occurrence of the pattern at index `q`: the second
capture of `(^|\s)(pattern)($|[\s.])` can start at `q`. -/
def isolatedAt (p s : Str) (q : Nat) : Bool :=
  ciOccursAt p s q &&
  (q = 0 || isWsChar (s.getD (q - 1) ' ')) &&
  (q + p.length = s.length || isWsChar (s.getD (q + p.length) ' ') ||
    s.getD (q + p.length) ' ' = '.')

/-- The leftmost isolated occurrence (the capture Rust's leftmost-first
search would report): the smallest viable start index. -/
def firstIsolated (p s : Str) : Option Str :=
  ((List.range (s.length + 1)).filter (isolatedAt p s)).head?.map
    (fun q => sliceStr s q (q + p.length))

/-- `get_spelling_match`: reject when the pattern occurs in a code span,
otherwise return the leftmost isolated occurrence.  (`MatchError` variants
are collapsed to `none`: both are treated identically by the caller.) -/
def getSpellingMatch (p s : Str) : Option Str :=
  if codeSpanHit p s then none else firstIsolated p s

/-- Leftmost case-insensitive occurrence of the (literal) pattern. -/
def firstCIOcc (p s : Str) : Option Nat :=
  ((List.range (s.length + 1)).filter (fun i => ciOccursAt p s i)).head?

/-- `Regex::replace` for a literal case-insensitive pattern: replace the
leftmost occurrence. -/
def replaceFirstCI (p c s : Str) : Str :=
  match firstCIOcc p s with
  | none => s
  | some i => s.take i ++ c ++ s.drop (i + p.length)

/-- `check_spelling`: for each configured `(correct, pattern)` pair, look
for an isolated, non-code-span match in the *original* text; when the
match differs from the correct spelling, replace the pattern's leftmost
occurrence in the *evolving* fixed text and record one problem. -/
def checkSpelling (cfg : Config) (text : Str) : Str × List Str :=
  cfg.expectedSpellings.foldl
    (fun acc pair =>
      match getSpellingMatch pair.2 text with
      | none => acc
      | some m =>
        if m = pair.1 then acc
        else
          (replaceFirstCI pair.2 pair.1 acc.1,
           acc.2 ++ [str "'" ++ pair.1 ++ str "' should be used instead of '" ++ m ++ str "'"]))
    (text, [])

/-- `check_description`: capitalize a lower-case alphabetic first
character, append a missing trailing period (checked on the capitalized
text), then run spelling correction.  The `expect` calls on an empty
description (unreachable from the entry grammar) are modelled as `none`. -/
def checkDescription (cfg : Config) (desc : Str) : Option (Str × List Str) :=
  match desc with
  | [] => none
  | firstLetter :: rest =>
    let (fixed1, p1) :=
      if firstLetter.isAlpha ∧ ¬ firstLetter.isUpper then
        (upperChar firstLetter :: rest,
         [str "PR description should start with capital letter: '" ++ desc ++ str "'"])
      else (desc, ([] : List Str))
    match fixed1.getLast? with
    | none => none
    | some lastLetter =>
      let (fixed2, p2) :=
        if lastLetter ≠ '.' then
          (fixed1 ++ ['.'],
           [str "PR description should end with a dot: '" ++ desc ++ str "'"])
        else (fixed1, ([] : List Str))
      let (fixed3, sp) := checkSpelling cfg fixed2
      some (fixed3, p1 ++ p2 ++ sp)

/-! ## Entry parser (`src/single_file/entry.rs`) -/

/-- An individual changelog entry (`single_file::entry::Entry`). -/
structure Entry where
  category : Str
  fixed : Str
  prNumber : Nat
  problems : List Str
deriving DecidableEq

/-- The capture groups of the entry regex. -/
structure EntryParts where
  ws0 : Str
  ws1 : Str
  category : Str
  ws2 : Str
  bs : Bool
  prDigits : Str
  ws3 : Str
  link : Str
  ws4 : Str
  desc : Str
deriving DecidableEq

/-- Hand-compiled entry regex
`^(?P<ws0>\s*)-(?P<ws1>\s*)\((?P<category>[a-zA-Z0-9-]+)\)(?P<ws2>\s*)\[(?P<bs>\\)?#(?P<pr>\d+)](?P<ws3>\s*)\((?P<link>[^)]*)\)(?P<ws4>\s*)(?P<desc>.+)$`.
Every quantified class is followed by a literal outside the class, so each
capture is the greedy deterministic run — except the final
`(?P<ws4>\s*)(?P<desc>.+)$`, where `.+` backtracks one whitespace
character out of `ws4` when the remainder would otherwise be empty
(`.` does not match `\n`). -/
def entryMatch (line : Str) : Option EntryParts :=
  let ws0 := line.takeWhile isWsChar
  match line.dropWhile isWsChar with
  | '-' :: r1 =>
    let ws1 := r1.takeWhile isWsChar
    match r1.dropWhile isWsChar with
    | '(' :: r3 =>
      let category := r3.takeWhile isCatChar
      if category.isEmpty then none
      else
        match r3.dropWhile isCatChar with
        | ')' :: r5 =>
          let ws2 := r5.takeWhile isWsChar
          match r5.dropWhile isWsChar with
          | '[' :: r7 =>
            let (bs, r8) :=
              match r7 with
              | '\\' :: t => (true, t)
              | _ => (false, r7)
            match r8 with
            | '#' :: r9 =>
              let prDigits := r9.takeWhile isDigitChar
              if prDigits.isEmpty then none
              else
                match r9.dropWhile isDigitChar with
                | ']' :: r11 =>
                  let ws3 := r11.takeWhile isWsChar
                  match r11.dropWhile isWsChar with
                  | '(' :: r13 =>
                    let link := r13.takeWhile (fun c => c ≠ ')')
                    match r13.dropWhile (fun c => c ≠ ')') with
                    | ')' :: r15 =>
                      let w := r15.takeWhile isWsChar
                      let rest := r15.dropWhile isWsChar
                      if rest.isEmpty then
                        match r15.getLast? with
                        | none => none
                        | some lastC =>
                          if lastC = '\n' then none
                          else some ⟨ws0, ws1, category, ws2, bs, prDigits, ws3, link,
                            r15.dropLast, [lastC]⟩
                      else
                        if rest.any (fun c => c = '\n') then none
                        else some ⟨ws0, ws1, category, ws2, bs, prDigits, ws3, link, w, rest⟩
                    | _ => none
                  | _ => none
                | _ => none
            | _ => none
          | _ => none
        | _ => none
    | _ => none
  | _ => none

/-- `check_whitespace` (array version of `src/single_file/entry.rs`):
compare the five gaps with the expected gaps, one templated message per
mismatching position. -/
def checkWhitespace (spaces : List Str) : List Str :=
  let expected := [str "", str " ", str " ", str "", str " "]
  let errors :=
    [str "There should be no leading whitespace before the dash",
     str "There should be exactly one space between the leading dash and the category",
     str "There should be exactly one space between the category and the PR link",
     str "There should be no whitespace inside of the markdown link",
     str "There should be exactly one space between the PR link and the description"]
  ((spaces.zip expected).zip errors).foldl
    (fun acc x => if x.1.1 ≠ x.1.2 then acc ++ [x.2] else acc) []

/-- `build_fixed`. -/
def buildFixed (cat link desc : Str) (pr : Nat) : Str :=
  str "- (" ++ cat ++ str ") [#" ++ natDigits pr ++ str "](" ++ link ++ str ") " ++ desc

/-- Result of `single_file::entry::parse`: a hard grammar failure is
`invalid` (the `EntryError::InvalidEntry` carrying the raw line), a
checker `expect`/`unwrap` failure is `panic`. -/
inductive EntryRes where
  | panic
  | invalid (line : Str)
  | ok (e : Entry)
deriving DecidableEq

/-- `single_file::entry::parse`: regex match, `u64` parse of the PR
capture (`unwrap`: overflow panics), whitespace / category / link /
description checks, canonical rebuild.  (This snapshot of the entry
parser records no problem for the optional backslash capture.) -/
def entryParse (cfg : Config) (line : Str) : EntryRes :=
  match entryMatch line with
  | none => .invalid line
  | some parts =>
    match parseU64 parts.prDigits with
    | none => .panic
    | some pr =>
      let wsProblems := checkWhitespace [parts.ws0, parts.ws1, parts.ws2, parts.ws3, parts.ws4]
      let (fixedCategory, categoryProblems) := checkCategory cfg parts.category
      match checkLink cfg parts.link pr with
      | none => .panic
      | some (fixedLink, linkProblems) =>
        match checkDescription cfg parts.desc with
        | none => .panic
        | some (fixedDesc, descProblems) =>
          .ok { category := fixedCategory
                fixed := buildFixed fixedCategory fixedLink fixedDesc pr
                prNumber := pr
                problems := wsProblems ++ categoryProblems ++ linkProblems ++ descProblems }

/-! ## Change-type parser (`src/single_file/change_type.rs`) -/

structure ChangeType where
  name : Str
  fixed : Str
  problems : List Str
  entries : List Entry
deriving DecidableEq

/-- The name capture of `^\s*###\s*(?P<name>[a-zA-Z0-9- ]+)\s*$`.  The
`\s*` before the name is greedy; when everything after `###` is
whitespace, backtracking hands a single space back to the name capture
(possible exactly when that whitespace contains a space). -/
def ctMatch (line : Str) : Option Str :=
  match line.dropWhile isWsChar with
  | '#' :: '#' :: '#' :: r1 =>
    let r2 := r1.dropWhile isWsChar
    if r2.isEmpty then
      if r1.any (fun c => c = ' ') then some [' '] else none
    else
      let name := r2.takeWhile isNameChar
      if name.isEmpty then none
      else if (r2.drop name.length).all isWsChar then some name
      else none
  | _ => none

/-- The whitespace-generalized case-insensitive pattern derived from a
configured change-type name (each whitespace run replaced by `\s*`,
matched with `is_match`, i.e. as a substring): the name's non-whitespace
blocks must occur in order, separated by arbitrary whitespace runs. -/
def wsBlocks : Str → List Str
  | [] => []
  | c :: rest =>
    if isWsChar c then wsBlocks rest
    else
      match wsBlocks rest with
      | [] => [[c]]
      | b :: bs =>
        match rest with
        | r :: _ =>
          if isWsChar r then [c] :: b :: bs else (c :: b) :: bs
        | [] => [[c]]

def blocksFrom : List Str → Str → Bool
  | [], _ => true
  | b :: bs, s =>
    toLowerStr (s.take b.length) = toLowerStr b &&
    b.length ≤ s.length &&
    blocksFrom bs ((s.drop b.length).dropWhile isWsChar)

def ctPatternMatches (long name : Str) : Bool :=
  (List.range (name.length + 1)).any (fun i => blocksFrom (wsBlocks long) (name.drop i))

/-- `single_file::change_type::parse`: match the header grammar, rewrite
the name to the first configured change type whose generalized pattern
matches (recording a problem when the spelling differs), flag unknown
change types, and flag a malformed header line. -/
def ctParse (cfg : Config) (line : Str) : Except Unit ChangeType :=
  match ctMatch line with
  | none => .error ()
  | some name =>
    let hit := cfg.changeTypes.find? (fun ct => ctPatternMatches ct.long name)
    let (fixedName, problems1) :=
      match hit with
      | none => (name, [str "'" ++ name ++ str "' is not a valid change type"])
      | some ct =>
        if name ≠ ct.long then
          (ct.long, [str "'" ++ ct.long ++ str "' should be used instead of '" ++ name ++ str "'"])
        else (name, ([] : List Str))
    let fixed := str "### " ++ fixedName
    let problems2 : List Str :=
      if (str "### " ++ name) ≠ line then
        [str "Change type line is malformed; should be: '" ++ fixed ++ str "'"]
      else []
    .ok { name := fixedName, fixed, problems := problems1 ++ problems2, entries := [] }

/-! ## Release parser (`src/single_file/release.rs`) -/

structure Release where
  line : Str
  fixed : Str
  version : Str
  changeTypes : List ChangeType
  problems : List Str
deriving DecidableEq

/-- `Release::is_unreleased`. -/
def Release.isUnreleased (r : Release) : Bool := r.version = str "Unreleased"

/-- `Release::is_legacy`: false when unreleased or no legacy version is
configured; otherwise parse both versions (`?` propagates the version
errors) and compare. -/
def Release.isLegacy (r : Release) (cfg : Config) : Except VersionError Bool :=
  if r.isUnreleased || !cfg.hasLegacyVersion then .ok false
  else
    match cfg.legacyVersion with
    | none => .ok false
    | some lv =>
      match versionParse lv with
      | .error e => .error e
      | .ok legacyVersion =>
        match versionParse r.version with
        | .error e => .error e
        | .ok parsedVersion => .ok (!parsedVersion.gt legacyVersion)

/-- The *unanchored* `is_match` of `\s*##\s*unreleased\s*$`
(case-insensitive): some position starts `##`, then whitespace, then
`unreleased`, then whitespace up to the end of the line. -/
def unreleasedFrom (s : Str) : Bool :=
  match s with
  | '#' :: '#' :: rest =>
    let r := rest.dropWhile isWsChar
    toLowerStr (r.take 10) = str "unreleased" && (r.drop 10).all isWsChar
  | _ => false

def unreleasedHit (line : Str) : Bool :=
  (List.range (line.length + 1)).any (fun i => unreleasedFrom (line.drop i))

/-- `check_unreleased`. -/
def checkUnreleased (line : Str) : Option Release :=
  if unreleasedHit line then
    some { line
           fixed := str "## Unreleased"
           version := str "Unreleased"
           changeTypes := []
           problems :=
             if str "## Unreleased" ≠ line then
               [str "Unreleased header is malformed; expected: '## Unreleased'; got: '" ++
                 line ++ str "'"]
             else [] }
  else none

/-- The version token `v\d+\.\d+\.\d+(-rc\d+)?` of the release header
regex (case-insensitive, capture kept verbatim): returns the capture and
the remainder.  The optional `-rc` group is attempted greedily and
abandoned as a whole if incomplete. -/
def versionToken (s : Str) : Option (Str × Str) :=
  match s with
  | c :: r0 =>
    if lowerChar c ≠ 'v' then none
    else
      let d1 := r0.takeWhile isDigitChar
      if d1.isEmpty then none
      else
        match r0.dropWhile isDigitChar with
        | '.' :: r2 =>
          let d2 := r2.takeWhile isDigitChar
          if d2.isEmpty then none
          else
            match r2.dropWhile isDigitChar with
            | '.' :: r4 =>
              let d3 := r4.takeWhile isDigitChar
              if d3.isEmpty then none
              else
                let base := c :: d1 ++ '.' :: d2 ++ '.' :: d3
                match r4.dropWhile isDigitChar with
                | '-' :: c1 :: c2 :: r6 =>
                  if lowerChar c1 = 'r' ∧ lowerChar c2 = 'c' then
                    let d4 := r6.takeWhile isDigitChar
                    if d4.isEmpty then some (base, '-' :: c1 :: c2 :: r6)
                    else some (base ++ '-' :: c1 :: c2 :: d4, r6.dropWhile isDigitChar)
                  else some (base, '-' :: c1 :: c2 :: r6)
                | r5 => some (base, r5)
            | _ => none
        | _ => none
  | [] => none

/-- The tail `\s*-\s*(?P<date>\d{4}-\d{2}-\d{2})$` of the release regex:
returns the date capture. -/
def dateTail (s : Str) : Option Str :=
  match s.dropWhile isWsChar with
  | '-' :: r1 =>
    let r2 := r1.dropWhile isWsChar
    if r2.length = 10 ∧
        (List.range 10).all (fun i =>
          if i = 4 ∨ i = 7 then r2.getD i ' ' = '-' else isDigitChar (r2.getD i ' ')) then
      some r2
    else none
  | _ => none

/-- The optional link group `(?P<link>\(.*\))?` followed by the date
tail: with a greedy `.*`, the split is at the *last* `)` whose remainder
matches the tail; if no split works the group is skipped. -/
def linkSplit (t : Str) : Option (Str × Str) :=
  ((List.range t.length).reverse.filterMap (fun j =>
    if t.getD j ' ' = ')' ∧ (t.take j).all (fun c => c ≠ '\n') then
      match dateTail (t.drop (j + 1)) with
      | some date => some (t.take j, date)
      | none => none
    else none)).head?

/-- The whole dated release header regex
`^\s*##\s*\[(?P<version>v\d+\.\d+\.\d+(-rc\d+)?)](?P<link>\(.*\))?\s*-\s*(?P<date>\d{4}-\d{2}-\d{2})$`
(case-insensitive): returns the version capture, the link capture
without its surrounding parentheses, and the date capture. -/
def releaseMatch (line : Str) : Option (Str × Option Str × Str) :=
  match line.dropWhile isWsChar with
  | '#' :: '#' :: r1 =>
    match r1.dropWhile isWsChar with
    | '[' :: r2 =>
      match versionToken r2 with
      | none => none
      | some (ver, r3) =>
        match r3 with
        | ']' :: r4 =>
          match r4 with
          | '(' :: t =>
            match linkSplit t with
            | some (inner, date) => some (ver, some inner, date)
            | none =>
              match dateTail r4 with
              | some date => some (ver, none, date)
              | none => none
          | _ =>
            match dateTail r4 with
            | some date => some (ver, none, date)
            | none => none
        | _ => none
    | _ => none
  | _ => none

/-- `release::check_link`: rebuild `{target_repo}/releases/tag/{version}`;
a missing link or a differing link each yield one problem. -/
def releaseCheckLink (cfg : Config) (link version : Str) : Str × List Str :=
  let fixedLink := cfg.targetRepo ++ str "/releases/tag/" ++ version
  if link.isEmpty then
    (fixedLink, [str "Release link is missing for version " ++ version])
  else if link ≠ fixedLink then
    (fixedLink,
     [str "Release link should point to the GitHub release for " ++ version ++
       str "; expected: '" ++ fixedLink ++ str "'; got: '" ++ link ++ str "'"])
  else (fixedLink, [])

/-- `single_file::release::parse`: the unreleased form first, then the
dated form with the canonical link rebuild. -/
def releaseParse (cfg : Config) (line : Str) : Except Unit Release :=
  match checkUnreleased line with
  | some r => .ok r
  | none =>
    match releaseMatch line with
    | none => .error ()
    | some (ver, linkOpt, date) =>
      let link := linkOpt.getD []
      let (fixedLink, linkProblems) := releaseCheckLink cfg link ver
      .ok { line
            fixed := str "## [" ++ ver ++ str "](" ++ fixedLink ++ str ") - " ++ date
            version := ver
            changeTypes := []
            problems := linkProblems }

/-! ## Escape directives (`src/escapes.rs`) -/

inductive LinterEscape where
  | fullLine
  | duplicatePR
deriving DecidableEq

/-- Unanchored `is_match` of `<!--\s*KEY(:.+)?\s*-->`: some position
starts `<!--`, then whitespace, then the key; after the key either
whitespace then `-->`, or `:` then at least one non-newline character,
then whitespace, then `-->`. -/
def escapeHit (key : Str) (s : Str) : Bool :=
  (List.range (s.length + 1)).any (fun i =>
    occursAt (str "<!--") s i &&
    (let r1 := (s.drop (i + 4)).dropWhile isWsChar
     key.isPrefixOf r1 &&
     (let r := r1.drop key.length
      (str "-->").isPrefixOf (r.dropWhile isWsChar) ||
      (match r with
       | ':' :: t =>
         (List.range (t.length + 1)).any (fun a =>
           1 ≤ a && (t.take a).all (fun c => c ≠ '\n') &&
           (List.range (t.length + 1)).any (fun b =>
             (sliceStr t a (a + b)).all isWsChar && (str "-->").isPrefixOf (t.drop (a + b))))
       | _ => false))))

/-- `check_escape_pattern`: the duplicate-PR pattern first, then the
full-line pattern. -/
def checkEscapePattern (line : Str) : Option LinterEscape :=
  if escapeHit (str "clu-disable-next-line-duplicate-pr") line then some .duplicatePR
  else if escapeHit (str "clu-disable-next-line") line then some .fullLine
  else none

/-! ## Changelog assembler (`src/single_file/changelog.rs`) -/

/-- The mutable scan state of `parse_changelog`.  `curVersion` models the
`current_release.version` read by the duplicate-change-type message
(initialised from `new_empty_release`).  The `n_releases`/`n_change_types`
cursors of the source always equal the length of `releases` and of the
last release's `change_types` (both are reset/incremented in lockstep), so
the `get_mut(n - 1)` accesses are modelled as accesses to the last
element, panicking when the corresponding list is empty. -/
structure ScanState where
  comments : List Str
  legacyContents : List Str
  releases : List Release
  problems : List Str
  curVersion : Str
  seenReleases : List Str
  seenChangeTypes : List Str
  seenPrs : List Nat
  escapes : List LinterEscape
  isComment : Bool
  isLegacy : Bool
deriving DecidableEq

def initState : ScanState :=
  { comments := [], legacyContents := [], releases := [], problems := []
    curVersion := [], seenReleases := [], seenChangeTypes := [], seenPrs := []
    escapes := [], isComment := false, isLegacy := false }

/-- `"{path}:{line + 1}: {problem}"` (`add_to_problems`). -/
def fmtProblem (path : Str) (i : Nat) (p : Str) : Str :=
  path ++ str ":" ++ natDigits (i + 1) ++ str ": " ++ p

/-- Append a change type to the last release (`releases.get_mut(n_releases - 1)`);
`none` models the `expect` panic when there is no release yet. -/
def pushCT (releases : List Release) (ct : ChangeType) : Option (List Release) :=
  match releases.getLast? with
  | none => none
  | some r => some (releases.dropLast ++ [{ r with changeTypes := r.changeTypes ++ [ct] }])

/-- Append an entry to the last change type of the last release; `none`
models the two `expect` panics. -/
def pushEntry (releases : List Release) (e : Entry) : Option (List Release) :=
  match releases.getLast? with
  | none => none
  | some r =>
    match r.changeTypes.getLast? with
    | none => none
    | some ct =>
      some (releases.dropLast ++
        [{ r with changeTypes := r.changeTypes.dropLast ++ [{ ct with entries := ct.entries ++ [e] }] }])

inductive StepRes where
  | ok (st : ScanState)
  | err
  | panic
deriving DecidableEq

/-- One iteration of the `parse_changelog` loop on line `i`. -/
def processLine (cfg : Config) (path : Str) (i : Nat) (line : Str) (st : ScanState) : StepRes :=
  if st.isLegacy then .ok { st with legacyContents := st.legacyContents ++ [line] }
  else
    let trimmed := trimStr line
    let st := if containsSub (str "<!--") trimmed then { st with isComment := true } else st
    if st.isComment ∧ containsSub (str "-->") trimmed then
      let st := { st with isComment := false, comments := st.comments ++ [line] }
      match checkEscapePattern trimmed with
      | some e => .ok { st with escapes := st.escapes ++ [e] }
      | none => .ok st
    else if st.isComment then .ok { st with comments := st.comments ++ [line] }
    else if (str "## ").isPrefixOf trimmed then
      match releaseParse cfg line with
      | .error _ => .err
      | .ok rel =>
        let st := { st with releases := st.releases ++ [rel], curVersion := rel.version }
        let st :=
          if st.seenReleases.contains rel.version then
            { st with problems := st.problems ++
                [fmtProblem path i (str "duplicate release: " ++ rel.version)] }
          else { st with seenReleases := st.seenReleases ++ [rel.version] }
        let st := { st with seenChangeTypes := [] }
        match rel.isLegacy cfg with
        | .error _ => .panic
        | .ok leg =>
          let st := if leg then { st with isLegacy := true } else st
          .ok { st with problems := st.problems ++ rel.problems.map (fmtProblem path i) }
    else if (str "### ").isPrefixOf trimmed then
      match ctParse cfg line with
      | .error _ => .err
      | .ok ct =>
        let st :=
          if st.seenChangeTypes.contains ct.name then
            { st with problems := st.problems ++
                [fmtProblem path i (str "duplicate change type in release " ++
                  st.curVersion ++ str ": " ++ ct.name)] }
          else { st with seenChangeTypes := st.seenChangeTypes ++ [ct.name] }
        let st := { st with problems := st.problems ++ ct.problems.map (fmtProblem path i) }
        match pushCT st.releases ct with
        | none => .panic
        | some rs => .ok { st with releases := rs }
    else if trimmed.head? ≠ some '-' then .ok st
    else
      match entryParse cfg line with
      | .panic => .panic
      | .invalid l =>
        let st :=
          if ¬ st.escapes.contains .fullLine then
            { st with problems := st.problems ++ [fmtProblem path i (str "invalid entry: " ++ l)] }
          else st
        .ok { st with escapes := [] }
      | .ok e =>
        let st :=
          if st.seenPrs.contains e.prNumber ∧
              (¬ st.escapes.contains .duplicatePR ∧ ¬ st.escapes.contains .fullLine) then
            { st with
              problems := st.problems ++
                [fmtProblem path i (str "duplicate PR: #" ++ natDigits e.prNumber)]
              escapes := st.escapes.filter (fun x => x ≠ .duplicatePR) }
          else { st with seenPrs := st.seenPrs ++ [e.prNumber] }
        let st :=
          if ¬ st.escapes.contains .fullLine then
            { st with problems := st.problems ++ e.problems.map (fmtProblem path i) }
          else st
        match pushEntry st.releases e with
        | none => .panic
        | some rs => .ok { st with releases := rs, escapes := [] }

inductive ScanRes where
  | ok (st : ScanState)
  | err
  | panic
deriving DecidableEq

/-- The `parse_changelog` loop over the enumerated lines. -/
def runScanAux (cfg : Config) (path : Str) : Nat → List Str → ScanState → ScanRes
  | _, [], st => .ok st
  | i, l :: rest, st =>
    match processLine cfg path i l st with
    | .ok st' => runScanAux cfg path (i + 1) rest st'
    | .err => .err
    | .panic => .panic

def runScan (cfg : Config) (path : Str) (lines : List Str) : ScanRes :=
  runScanAux cfg path 0 lines initState

/-- The parsed `Changelog` value (`single_file::changelog::Changelog`). -/
structure Changelog where
  path : Str
  comments : List Str
  legacyContents : List Str
  releases : List Release
  problems : List Str
deriving DecidableEq

inductive ParseRes where
  | ok (c : Changelog)
  | err
  | panic
deriving DecidableEq

/-- `parse_changelog` over an already-split line list (`contents.lines()`). -/
def parseChangelog (cfg : Config) (path : Str) (lines : List Str) : ParseRes :=
  match runScan cfg path lines with
  | .ok st => .ok { path, comments := st.comments, legacyContents := st.legacyContents,
                    releases := st.releases, problems := st.problems }
  | .err => .err
  | .panic => .panic

/-! ## Canonical serializer (`get_fixed_contents`) -/

/-- `ChangeType::get_fixed_contents` as a line list:
`fixed`, a blank line, then the fixed entry lines. -/
def ctLines (ct : ChangeType) : List Str :=
  [ct.fixed, []] ++ ct.entries.map (fun e => e.fixed)

/-- `Release::get_fixed_contents` as a line list: the fixed header, then
each change-type block preceded by a blank line. -/
def releaseLines (r : Release) : List Str :=
  [r.fixed] ++ r.changeTypes.flatMap (fun ct => [[]] ++ ctLines ct)

/-- `Changelog::get_fixed_contents` as a line list: the comments, the
`# Changelog` title, each release block preceded by a blank line, then
the legacy block verbatim. -/
def renderLines (c : Changelog) : List Str :=
  c.comments ++ [str "# Changelog"] ++
    c.releases.flatMap (fun r => [[]] ++ releaseLines r) ++ c.legacyContents

/-- `Changelog::get_fixed_contents`: every rendered line is emitted with a
trailing newline. -/
def getFixedContents (c : Changelog) : Str :=
  (renderLines c).flatMap (fun l => l ++ ['\n'])

/-- Rust `str::lines()` (`\n` separators, optional final line ending, a
trailing `\r` stripped from each line).  On newline-joined text this
recovers the line list itself whenever no line contains a newline;
documents are therefore modelled as line lists throughout. -/
def splitLines (s : Str) : List Str :=
  match s with
  | [] => []
  | _ =>
    let segs :=
      if s.getLast? = some '\n' then (splitOnChar '\n' s).dropLast
      else splitOnChar '\n' s
    segs.map (fun l => if l.getLast? = some '\r' then l.dropLast else l)

/-! ## Concrete configuration used for witnesses and counterexamples
(mirrors the repository's example configuration). -/

def exampleConfig : Config :=
  { categories := [str "cli", str "test"]
    changeTypes := [⟨str "bug", str "Bug Fixes"⟩, ⟨str "feat", str "Features"⟩]
    expectedSpellings := [(str "API", str "api"), (str "CLI", str "cli")]
    legacyVersion := none
    targetRepo := str "https://github.com/MalteHerrmann/changelog-utils" }

def exampleLegacyConfig : Config :=
  { exampleConfig with legacyVersion := some (str "v1.0.0") }

def examplePath : Str := str "CHANGELOG.md"

/-- A configuration carrying a single expected-spellings pair, to state
the spelling checker's behaviour pair by pair. -/
def spellingOnlyConfig (correct pattern : Str) : Config :=
  { categories := [], changeTypes := [], expectedSpellings := [(correct, pattern)],
    legacyVersion := none, targetRepo := [] }

/-! ## Reparse stability (for the idempotence analysis)

The canonical rendering of a parsed changelog reparses without change
only under hygiene conditions on the parsed value; the predicates below
state them executably.  They quote the branch conditions of
`parse_changelog` on the rendered lines and require each stored fixed
line to reparse to a value carrying the same fixed line. -/

/-- One step of the comment handling of `parse_changelog` (the `<!--` /
`-->` / `is_comment` logic): the updated `is_comment` state, or `none`
when the line is not treated as part of a comment. -/
def commentStep (b : Bool) (l : Str) : Option Bool :=
  if b || containsSub (str "<!--") (trimStr l) then
    some (!containsSub (str "-->") (trimStr l))
  else none

/-- Replay of the comment machine over a line list. -/
def commentsReplay : Bool → List Str → Option Bool
  | b, [] => some b
  | b, l :: ls =>
    match commentStep b l with
    | none => none
    | some b2 => commentsReplay b2 ls

/-- A stored entry whose fixed line is recognized as an entry line and
reparses to an entry with the same fixed line. -/
def entryStable (cfg : Config) (e : Entry) : Bool :=
  !containsSub (str "<!--") (trimStr e.fixed) &&
  ((trimStr e.fixed).head? == some '-') &&
  (match entryParse cfg e.fixed with
   | .ok e2 => e2.fixed == e.fixed
   | _ => false)

/-- A stored change type whose fixed header reparses to the same fixed
header with no entries, and whose entries are all stable. -/
def ctStable (cfg : Config) (ct : ChangeType) : Bool :=
  !containsSub (str "<!--") (trimStr ct.fixed) &&
  (str "### ").isPrefixOf (trimStr ct.fixed) &&
  (match ctParse cfg ct.fixed with
   | .ok ct2 => ct2.fixed == ct.fixed && ct2.entries.isEmpty
   | .error _ => false) &&
  ct.entries.all (entryStable cfg)

/-- A stored release whose fixed header reparses to the same fixed
header with no change types and the given legacy classification. -/
def releaseHeaderStable (cfg : Config) (r : Release) (leg : Bool) : Bool :=
  !containsSub (str "<!--") (trimStr r.fixed) &&
  (str "## ").isPrefixOf (trimStr r.fixed) &&
  (match releaseParse cfg r.fixed with
   | .ok r2 =>
     r2.fixed == r.fixed && r2.changeTypes.isEmpty &&
       (match r2.isLegacy cfg with
        | .ok b => b == leg
        | .error _ => false)
   | .error _ => false)

/-- A stored non-legacy release that reparses stably, with all its
change types stable. -/
def releaseStable (cfg : Config) (r : Release) : Bool :=
  releaseHeaderStable cfg r false && r.changeTypes.all (ctStable cfg)

/-- A parsed changelog whose canonical rendering reparses without
change: a closed comment block, stable releases, and a legacy tail only
behind a final legacy release header without change types. -/
def changelogStable (cfg : Config) (c : Changelog) : Bool :=
  (commentsReplay false c.comments == some false) &&
  ((c.releases.all (releaseStable cfg) && c.legacyContents.isEmpty) ||
   (match c.releases.getLast? with
    | none => false
    | some r =>
      c.releases.dropLast.all (releaseStable cfg) &&
      (releaseHeaderStable cfg r true && r.changeTypes.isEmpty)))

/-! ## Theorems -/

lemma char_ofNat_toNat {n : Nat} (h : n.isValidChar) : (Char.ofNat n).toNat = n := by
  unfold Char.ofNat
  rw [dif_pos h]
  unfold Char.ofNatAux Char.toNat
  simp [UInt32.toNat]

lemma upperChar_ne_dot {c : Char} (h : c.isAlpha = true) : upperChar c ≠ '.' := by
  intro hc
  unfold upperChar Char.toUpper at hc
  dsimp only at hc
  split_ifs at hc with hif
  · have h46 : (Char.ofNat (Char.toNat c - 32)).toNat = ('.' : Char).toNat := by rw [hc]
    have hvalid : (Char.toNat c - 32).isValidChar := by left; omega
    rw [char_ofNat_toNat hvalid] at h46
    have : ('.' : Char).toNat = 46 := by decide
    omega
  · rw [hc] at h
    exact absurd h (by decide)

lemma hash2_not_prefix_of_hash3 {t : Str} (h : (str "### ").isPrefixOf t = true) :
    (str "## ").isPrefixOf t = false := by
  rcases t with _ | ⟨a, t⟩
  · simp [str, List.isPrefixOf] at h
  rcases t with _ | ⟨b, t⟩
  · simp [str, List.isPrefixOf] at h
  rcases t with _ | ⟨c, t⟩
  · simp [str, List.isPrefixOf] at h
  simp [str, List.isPrefixOf] at h ⊢
  intro h1 h2
  rcases h with ⟨_, _, hc, _⟩
  rw [← hc]
  decide

lemma hash_prefix_false_of_head_dash {t : Str} (h : t.head? = some '-') :
    (str "## ").isPrefixOf t = false ∧ (str "### ").isPrefixOf t = false := by
  rcases t with _ | ⟨a, t⟩
  · simp at h
  simp only [List.head?_cons, Option.some.injEq] at h
  subst h
  constructor <;> simp [str, List.isPrefixOf]

section ProcessLineBranches

variable {cfg : Config} {path : Str} {i : Nat} {line : Str} {st : ScanState}

lemma processLine_legacy (h : st.isLegacy = true) :
    processLine cfg path i line st =
      .ok { st with legacyContents := st.legacyContents ++ [line] } := by
  unfold processLine
  rw [if_pos h]

lemma processLine_comment_close
    (hl : st.isLegacy = false)
    (hc : containsSub (str "<!--") (trimStr line) = true ∨ st.isComment = true)
    (hx : containsSub (str "-->") (trimStr line) = true) :
    processLine cfg path i line st =
      .ok { st with
            isComment := false
            comments := st.comments ++ [line]
            escapes := st.escapes ++ Option.toList (checkEscapePattern (trimStr line)) } := by
  unfold processLine
  by_cases hin : containsSub (str "<!--") (trimStr line) = true
  · simp only [hl, hin, hx, Bool.false_eq_true, if_false, if_true, and_true, and_self]
    all_goals rcases he : checkEscapePattern (trimStr line) with _ | e <;> simp [he, Option.toList]
  · rcases hc with hc | hc
    · exact absurd hc hin
    · simp only [hl, eq_self_iff_true, Bool.false_eq_true, if_false, hin, hc, hx, and_self, if_true]
      all_goals rcases he : checkEscapePattern (trimStr line) with _ | e <;> simp [he, Option.toList]

lemma processLine_comment_inside
    (hl : st.isLegacy = false)
    (hc : containsSub (str "<!--") (trimStr line) = true ∨ st.isComment = true)
    (hx : containsSub (str "-->") (trimStr line) = false) :
    processLine cfg path i line st =
      .ok { st with
            isComment := true
            comments := st.comments ++ [line] } := by
  unfold processLine
  by_cases hin : containsSub (str "<!--") (trimStr line) = true
  · simp only [hl, hin, hx, Bool.false_eq_true, if_false, if_true, and_false, and_true]
  · rcases hc with hc | hc
    · exact absurd hc hin
    · simp only [hl, Bool.false_eq_true, if_false, hin, hc, hx, and_false, if_true]

lemma processLine_release
    (hl : st.isLegacy = false) (hc : st.isComment = false)
    (hni : containsSub (str "<!--") (trimStr line) = false)
    (hpre : (str "## ").isPrefixOf (trimStr line) = true) :
    processLine cfg path i line st =
      match releaseParse cfg line with
      | .error _ => .err
      | .ok rel =>
        match rel.isLegacy cfg with
        | .error _ => .panic
        | .ok leg =>
          .ok { st with
                releases := st.releases ++ [rel]
                curVersion := rel.version
                problems :=
                  (if st.seenReleases.contains rel.version then
                    st.problems ++ [fmtProblem path i (str "duplicate release: " ++ rel.version)]
                   else st.problems) ++ rel.problems.map (fmtProblem path i)
                seenReleases :=
                  if st.seenReleases.contains rel.version then st.seenReleases
                  else st.seenReleases ++ [rel.version]
                seenChangeTypes := []
                isLegacy := leg } := by
  unfold processLine
  simp only [hl, hc, hni, hpre, Bool.false_eq_true, if_false, if_true, false_and, and_true]
  rcases hr : releaseParse cfg line with _ | rel
  · rfl
  · dsimp only
    rcases hleg : rel.isLegacy cfg with e | leg
    · dsimp only
      try split_ifs <;> rfl
    · dsimp only
      rcases hdup : st.seenReleases.contains rel.version with _ | _ <;>
        rcases hlegb : leg with _ | _ <;> simp_all

lemma processLine_ct
    (hl : st.isLegacy = false) (hc : st.isComment = false)
    (hni : containsSub (str "<!--") (trimStr line) = false)
    (hpre : (str "### ").isPrefixOf (trimStr line) = true) :
    processLine cfg path i line st =
      match ctParse cfg line with
      | .error _ => .err
      | .ok ct =>
        match pushCT st.releases ct with
        | none => .panic
        | some rs =>
          .ok { st with
                releases := rs
                problems :=
                  (if st.seenChangeTypes.contains ct.name then
                    st.problems ++ [fmtProblem path i
                      (str "duplicate change type in release " ++ st.curVersion ++
                        str ": " ++ ct.name)]
                   else st.problems) ++ ct.problems.map (fmtProblem path i)
                seenChangeTypes :=
                  if st.seenChangeTypes.contains ct.name then st.seenChangeTypes
                  else st.seenChangeTypes ++ [ct.name] } := by
  unfold processLine
  simp only [hl, hc, hni, hpre, hash2_not_prefix_of_hash3 hpre, Bool.false_eq_true, if_false,
    if_true, false_and, and_true]
  rcases hr : ctParse cfg line with _ | ct
  · rfl
  · dsimp only
    rcases hdup : st.seenChangeTypes.contains ct.name with _ | _ <;> try dsimp only
    all_goals rcases hp : pushCT st.releases ct with _ | rs <;> simp_all

lemma processLine_skip
    (hl : st.isLegacy = false) (hc : st.isComment = false)
    (hni : containsSub (str "<!--") (trimStr line) = false)
    (h2 : (str "## ").isPrefixOf (trimStr line) = false)
    (h3 : (str "### ").isPrefixOf (trimStr line) = false)
    (hd : (trimStr line).head? ≠ some '-') :
    processLine cfg path i line st = .ok st := by
  unfold processLine
  simp only [hl, hc, hni, h2, h3, hd, Bool.false_eq_true, if_false, if_true, false_and,
    ne_eq, not_false_eq_true]

lemma processLine_entry
    (hl : st.isLegacy = false) (hc : st.isComment = false)
    (hni : containsSub (str "<!--") (trimStr line) = false)
    (hd : (trimStr line).head? = some '-') :
    processLine cfg path i line st =
      match entryParse cfg line with
      | .panic => .panic
      | .invalid l =>
        .ok { st with
              problems :=
                if st.escapes.contains .fullLine then st.problems
                else st.problems ++ [fmtProblem path i (str "invalid entry: " ++ l)]
              escapes := [] }
      | .ok e =>
        match pushEntry st.releases e with
        | none => .panic
        | some rs =>
          .ok { st with
                releases := rs
                seenPrs :=
                  if st.seenPrs.contains e.prNumber ∧
                      (¬ st.escapes.contains .duplicatePR ∧ ¬ st.escapes.contains .fullLine) then
                    st.seenPrs
                  else st.seenPrs ++ [e.prNumber]
                problems :=
                  (if st.seenPrs.contains e.prNumber ∧
                      (¬ st.escapes.contains .duplicatePR ∧ ¬ st.escapes.contains .fullLine) then
                    st.problems ++ [fmtProblem path i (str "duplicate PR: #" ++ natDigits e.prNumber)]
                   else st.problems) ++
                  (if st.escapes.contains .fullLine then [] else e.problems.map (fmtProblem path i))
                escapes := [] } := by
  unfold processLine
  have hpre := hash_prefix_false_of_head_dash hd
  simp only [hl, hc, hni, hpre.1, hpre.2, hd, Bool.false_eq_true, if_false, if_true, false_and,
    ne_eq, not_true_eq_false]
  rcases hr : entryParse cfg line with _ | l | e
  · rfl
  · dsimp only
    rcases hesc : st.escapes.contains .fullLine with _ | _ <;> simp_all
  · dsimp only
    by_cases hdup : st.seenPrs.contains e.prNumber = true ∧
        (¬ st.escapes.contains .duplicatePR = true ∧ ¬ st.escapes.contains .fullLine = true)
    · rw [if_pos hdup, if_pos hdup, if_pos hdup]
      have hnf : st.escapes.contains .fullLine = false := by
        rcases hdup with ⟨_, _, h⟩
        simpa using h
      simp only [hnf, Bool.false_eq_true, if_false]
      rcases hp : pushEntry st.releases e with _ | rs <;> simp_all
    · rw [if_neg hdup, if_neg hdup, if_neg hdup]
      rcases hesc : st.escapes.contains .fullLine with _ | _ <;>
        rcases hp : pushEntry st.releases e with _ | rs <;> simp_all

end ProcessLineBranches

theorem parseU8_le {s : Str} {n : Nat} (h : parseU8 s = some n) : n ≤ 255 := by
  unfold parseU8 at h
  split_ifs at h <;> simp_all <;> omega

theorem versionParse_ok_bounds {s : Str} {v : Version} (h : versionParse s = .ok v) :
    v.major ≤ 255 ∧ v.minor ≤ 255 ∧ v.patch ≤ 255 ∧
      ∀ rc, v.rcVersion = some rc → rc ≤ 255 := by
  unfold versionParse at h
  rcases hm : versionMatch s with _ | ⟨d1, d2, d3, rcDigits⟩ <;> rw [hm] at h <;> dsimp only at h
  · exact absurd h (by simp)
  rcases h1 : parseU8 d1 with _ | ma <;> rw [h1] at h <;> try dsimp only at h
  · exact absurd h (by simp)
  rcases h2 : parseU8 d2 with _ | mi <;> rw [h2] at h <;> try dsimp only at h
  · exact absurd h (by simp)
  rcases h3 : parseU8 d3 with _ | pa <;> rw [h3] at h <;> try dsimp only at h
  · exact absurd h (by simp)
  rcases rcDigits with _ | ds <;> try dsimp only at h
  · simp only [Except.ok.injEq] at h
    subst h
    exact ⟨parseU8_le h1, parseU8_le h2, parseU8_le h3, by simp⟩
  · rcases h4 : parseU8 ds with _ | rc <;> rw [h4] at h <;> try dsimp only at h
    · exact absurd h (by simp)
    simp only [Except.ok.injEq] at h
    subst h
    refine ⟨parseU8_le h1, parseU8_le h2, parseU8_le h3, ?_⟩
    intro rc' hrc'
    simp only [Option.some.injEq] at hrc'
    subst hrc'
    exact parseU8_le h4

/-- C9: `Version::gt` holds exactly when the `(major, minor, patch)` triple
is lexicographically greater, or the triples are equal and either the left
version has no release candidate while the right one does, or both have
release candidates and the left one is strictly larger; and no version is
greater than itself. -/
theorem claim9_version_gt_order :
    (∀ a b : Version, a.gt b = true ↔
      (a.major > b.major ∨ a.major = b.major ∧ (a.minor > b.minor ∨ a.minor = b.minor ∧
        (a.patch > b.patch ∨ a.patch = b.patch ∧
          ((a.rcVersion = none ∧ b.rcVersion ≠ none) ∨
           (∃ ra rb, a.rcVersion = some ra ∧ b.rcVersion = some rb ∧ ra > rb)))))) ∧
    (∀ a : Version, a.gt a = false) := by
  constructor
  · rintro ⟨am, ai, ap, arc⟩ ⟨bm, bi, bp, brc⟩
    rcases arc with _ | ra <;> rcases brc with _ | rb <;>
      simp only [Version.gt] <;> split_ifs <;> simp_all <;> omega
  · rintro ⟨am, ai, ap, arc⟩
    rcases arc with _ | ra <;> simp [Version.gt]

lemma mem_foldl_filtered {α β : Type} (f : α → Prop) [DecidablePred f] (g : α → β)
    (l : List α) (acc : List β)
    {p : β} (h : p ∈ l.foldl (fun acc x => if f x then acc ++ [g x] else acc) acc) :
    p ∈ acc ∨ ∃ x ∈ l, p = g x := by
  induction l generalizing acc with
  | nil => exact .inl h
  | cons a l ih =>
    simp only [List.foldl_cons] at h
    rcases ih _ h with hin | ⟨x, hx, hpx⟩
    · by_cases hf : f a
      · rw [if_pos hf] at hin
        rcases List.mem_append.mp hin with h1 | h2
        · exact .inl h1
        · right
          exact ⟨a, by simp, by simpa using h2⟩
      · rw [if_neg hf] at hin
        exact .inl hin
    · right
      exact ⟨x, by simp [hx], hpx⟩

lemma checkWhitespace_head {spaces : List Str} {p : Str} (h : p ∈ checkWhitespace spaces) :
    p.head? = some 'T' := by
  unfold checkWhitespace at h
  rcases mem_foldl_filtered _ _ _ _ h with h1 | ⟨x, hx, hpx⟩
  · simp at h1
  · subst hpx
    rcases List.mem_zip hx with ⟨_, hx2⟩
    simp only [List.mem_cons, List.not_mem_nil, or_false] at hx2
    rcases hx2 with h | h | h | h | h <;> rw [h] <;> rfl

lemma checkCategory_head {cfg : Config} {c p : Str}
    (h : p ∈ (checkCategory cfg c).2) : p.head? = some 'c' ∨ p.head? = some 'i' := by
  unfold checkCategory at h
  dsimp only at h
  rcases List.mem_append.mp h with h1 | h2
  · split_ifs at h1 <;>
      first
      | exact absurd h1 (List.not_mem_nil p)
      | (rw [List.mem_singleton] at h1; subst h1; left; rfl)
  · split_ifs at h2 <;>
      first
      | exact absurd h2 (List.not_mem_nil p)
      | (rw [List.mem_singleton] at h2; subst h2; right; rfl)

lemma checkLink_head {cfg : Config} {l p fixed : Str} {pr : Nat} {ps : List Str}
    (hres : checkLink cfg l pr = some (fixed, ps)) (h : p ∈ ps) : p.head? = some 'P' := by
  unfold checkLink at hres
  rcases hm : parseU64 ((splitOnChar '/' l).getLastD []) with _ | n <;> rw [hm] at hres <;>
    try dsimp only at hres
  · exact absurd hres (by simp)
  · simp only [Option.some.injEq, Prod.mk.injEq] at hres
    rcases hres with ⟨_, hps⟩
    subst hps
    rcases List.mem_append.mp h with h1 | h2
    · split_ifs at h1 <;>
        first
        | exact absurd h1 (List.not_mem_nil p)
        | (rw [List.mem_singleton] at h1; subst h1; rfl)
    · split_ifs at h2 <;>
        first
        | exact absurd h2 (List.not_mem_nil p)
        | (rw [List.mem_singleton] at h2; subst h2; rfl)

lemma checkSpelling_head {cfg : Config} {t p : Str}
    (h : p ∈ (checkSpelling cfg t).2) : p.head? = some '\'' := by
  unfold checkSpelling at h
  suffices hgen : ∀ (l : List (Str × Str)) (acc : Str × List Str),
      (∀ q ∈ acc.2, q.head? = some '\'') →
      ∀ q ∈ (l.foldl (fun acc pair =>
        match getSpellingMatch pair.2 t with
        | none => acc
        | some m =>
          if m = pair.1 then acc
          else
            (replaceFirstCI pair.2 pair.1 acc.1,
             acc.2 ++ [str "'" ++ pair.1 ++ str "' should be used instead of '" ++ m ++ str "'"]))
        acc).2, q.head? = some '\'' by
    exact hgen cfg.expectedSpellings (t, []) (by simp) p h
  intro l
  induction l with
  | nil => intro acc hacc q hq; exact hacc q hq
  | cons a l ih =>
    intro acc hacc q hq
    simp only [List.foldl_cons] at hq
    apply ih _ _ q hq
    intro r hr
    rcases hm : getSpellingMatch a.2 t with _ | m <;> rw [hm] at hr <;> try dsimp only at hr
    · exact hacc r hr
    · by_cases he : m = a.1
      · rw [if_pos he] at hr
        exact hacc r hr
      · rw [if_neg he] at hr
        dsimp only at hr
        rcases List.mem_append.mp hr with h1 | h2
        · exact hacc r h1
        · rw [List.mem_singleton] at h2
          subst h2
          rfl

lemma checkDescription_head {cfg : Config} {d p fixed : Str} {ps : List Str}
    (hres : checkDescription cfg d = some (fixed, ps)) (h : p ∈ ps) :
    p.head? = some 'P' ∨ p.head? = some '\'' := by
  unfold checkDescription at hres
  rcases d with _ | ⟨c0, rest⟩
  · exact absurd hres (by simp)
  dsimp only at hres
  rcases hlast : (if c0.isAlpha ∧ ¬c0.isUpper then
      (upperChar c0 :: rest,
       [str "PR description should start with capital letter: '" ++ c0 :: rest ++ str "'"])
    else (c0 :: rest, ([] : List Str))).1.getLast? with _ | lastc <;> rw [hlast] at hres <;>
    try dsimp only at hres
  · exact absurd hres (by simp)
  · simp only [Option.some.injEq, Prod.mk.injEq] at hres
    rcases hres with ⟨_, hps⟩
    subst hps
    rcases List.mem_append.mp h with h01 | hsp
    · rcases List.mem_append.mp h01 with h1 | h2
      · by_cases hcap : (c0.isAlpha = true ∧ ¬ c0.isUpper = true)
        · rw [if_pos hcap] at h1
          dsimp only at h1
          rw [List.mem_singleton] at h1
          subst h1
          left
          rfl
        · rw [if_neg hcap] at h1
          exact absurd h1 (by simp)
      · split_ifs at h2 <;>
          first
          | exact absurd h2 (List.not_mem_nil p)
          | (rw [List.mem_singleton] at h2; subst h2; left; rfl)
    · right
      exact checkSpelling_head hsp

lemma entry_problems_head {cfg : Config} {line : Str} {e : Entry}
    (hres : entryParse cfg line = .ok e) {p : Str} (h : p ∈ e.problems) :
    p.head? = some 'T' ∨ p.head? = some 'c' ∨ p.head? = some 'i' ∨
      p.head? = some 'P' ∨ p.head? = some '\'' := by
  unfold entryParse at hres
  rcases hm : entryMatch line with _ | parts <;> rw [hm] at hres <;> try dsimp only at hres
  · exact absurd hres (by simp)
  rcases hu : parseU64 parts.prDigits with _ | pr <;> rw [hu] at hres <;> try dsimp only at hres
  · exact absurd hres (by simp)
  rcases hlk : checkLink cfg parts.link pr with _ | ⟨fl, lps⟩ <;> rw [hlk] at hres <;>
    try dsimp only at hres
  · exact absurd hres (by simp)
  rcases hds : checkDescription cfg parts.desc with _ | ⟨fd, dps⟩ <;> rw [hds] at hres <;>
    try dsimp only at hres
  · exact absurd hres (by simp)
  simp only [EntryRes.ok.injEq] at hres
  subst hres
  simp only at h
  rcases List.mem_append.mp h with h012 | h3
  · rcases List.mem_append.mp h012 with h01 | h2
    · rcases List.mem_append.mp h01 with h0 | h1
      · exact .inl (checkWhitespace_head h0)
      · rcases checkCategory_head h1 with hh | hh
        · exact .inr (.inl hh)
        · exact .inr (.inr (.inl hh))
    · exact .inr (.inr (.inr (.inl (checkLink_head hlk h2))))
  · rcases checkDescription_head hds h3 with hh | hh
    · exact .inr (.inr (.inr (.inl hh)))
    · exact .inr (.inr (.inr (.inr hh)))

lemma fmtProblem_inj {path : Str} {i : Nat} {p q : Str}
    (h : fmtProblem path i p = fmtProblem path i q) : p = q := by
  unfold fmtProblem at h
  exact List.append_cancel_left h

/-- C3 (code_bug): the spec says the link checker never aborts and always
returns the rebuilt `{target_repo}/pull/{pr_number}` link, for any link
text accepted by the entry grammar's `[^)]*` capture — but `check_link`
calls `.parse::<u64>().expect("this should always be a u64")` on the last
`/`-segment of the raw link, so an empty or non-numeric link panics: the
checker aborts the whole parse instead of reporting problems. -/
theorem claim3_check_link_panics :
    (∀ (cfg : Config) (pr : Nat), checkLink cfg [] pr = none) ∧
    (∀ (cfg : Config) (link : Str) (pr : Nat),
      parseU64 ((splitOnChar '/' link).getLastD []) = none → checkLink cfg link pr = none) ∧
    entryParse exampleConfig (str "- (cli) [#1]() Description.") = .panic := by
  refine ⟨?_, ?_, by decide⟩
  · intro cfg pr
    unfold checkLink
    simp [splitOnChar, parseU64]
  · intro cfg link pr h
    unfold checkLink
    rw [h]

/-- Witness for the hypothesis of the second conjunct of C3: the entry
line `- (cli) [#1](not-a-number) Fix.` has the non-numeric trailing
segment `not-a-number`, and the checker panics on it. -/
theorem claim3_check_link_panics_witness :
    parseU64 ((splitOnChar '/' (str "not-a-number")).getLastD []) = none ∧
      checkLink exampleConfig (str "not-a-number") 1 = none :=
  ⟨by decide, claim3_check_link_panics.2.1 exampleConfig (str "not-a-number") 1 (by decide)⟩

/-- C6 (confirmed): `Release::is_legacy` returns `true` exactly when a
legacy version is configured, the release is not the Unreleased section,
and the release's parsed version is not greater than the parsed legacy
version; the Unreleased release is never legacy, `v0.9.0` is legacy under
`legacy_version = v1.0.0` and `v1.0.1` is not. -/
theorem claim6_is_legacy_iff :
    (∀ (r : Release) (cfg : Config),
      r.isLegacy cfg = .ok true ↔
        ∃ lv vl vr, cfg.legacyVersion = some lv ∧ r.version ≠ str "Unreleased" ∧
          versionParse lv = .ok vl ∧ versionParse r.version = .ok vr ∧ vr.gt vl = false) ∧
    (∀ (r : Release) (cfg : Config), r.version = str "Unreleased" →
      r.isLegacy cfg = .ok false) ∧
    ({ line := [], fixed := [], version := str "v0.9.0", changeTypes := [], problems := []
       : Release }.isLegacy exampleLegacyConfig = .ok true) ∧
    ({ line := [], fixed := [], version := str "v1.0.1", changeTypes := [], problems := []
       : Release }.isLegacy exampleLegacyConfig = .ok false) := by
  refine ⟨?_, ?_, by decide, by decide⟩
  · intro r cfg
    unfold Release.isLegacy Release.isUnreleased Config.hasLegacyVersion
    rcases hlv : cfg.legacyVersion with _ | lv
    · simp [hlv]
    · by_cases hv : r.version = str "Unreleased"
      · simp [hlv, hv]
      · simp only [hlv, hv, Option.isSome_some, Bool.not_true, Bool.or_false, decide_eq_true_eq]
        rcases h1 : versionParse lv with e | vl
        · simp [h1, hv]
        · rcases h2 : versionParse (r.version) with e2 | vr
          · simp [h1, h2, hv]
          · simp [h1, h2, hv, Bool.not_eq_true']
  · intro r cfg hu
    unfold Release.isLegacy Release.isUnreleased
    rw [if_pos (by simp [hu])]

/-- Witness for the hypothesis of the second conjunct of C6. -/
theorem claim6_is_legacy_iff_witness :
    ({ line := str "## Unreleased", fixed := str "## Unreleased", version := str "Unreleased",
       changeTypes := [], problems := [] : Release }.version = str "Unreleased") ∧
    ({ line := str "## Unreleased", fixed := str "## Unreleased", version := str "Unreleased",
       changeTypes := [], problems := [] : Release }.isLegacy exampleLegacyConfig = .ok false) :=
  ⟨by decide, claim6_is_legacy_iff.2.1 _ exampleLegacyConfig (by decide)⟩

/-- C7 (confirmed): a non-empty description starting with a lower-case
alphabetic character and not ending in a period (with no spelling
correction firing) is fixed by upper-casing the first character and
appending a period, with exactly the capitalization problem followed by
the missing-period problem, each quoting the original text. -/
theorem claim7_description_autofix (cfg : Config) (c : Char) (rest : Str)
    (hAlpha : c.isAlpha = true) (hUpper : c.isUpper = false)
    (hNoDot : (c :: rest).getLast? ≠ some '.')
    (hSpell : checkSpelling cfg ((upperChar c :: rest) ++ ['.']) =
      ((upperChar c :: rest) ++ ['.'], [])) :
    checkDescription cfg (c :: rest) =
      some ((upperChar c :: rest) ++ ['.'],
        [str "PR description should start with capital letter: '" ++ (c :: rest) ++ str "'",
         str "PR description should end with a dot: '" ++ (c :: rest) ++ str "'"]) := by
  unfold checkDescription
  dsimp only
  rw [if_pos ⟨hAlpha, by simp [hUpper]⟩]
  rcases hlast : (upperChar c :: rest).getLast? with _ | l
  · simp at hlast
  · have hld : l ≠ '.' := by
      rcases rest with _ | ⟨r, rs⟩
      · simp only [List.getLast?_singleton, Option.some.injEq] at hlast
        rw [← hlast]
        exact upperChar_ne_dot hAlpha
      · rw [List.getLast?_cons_cons] at hlast
        rw [List.getLast?_cons_cons, hlast] at hNoDot
        intro he
        exact hNoDot (by rw [he])
    dsimp only
    rw [if_pos hld]
    dsimp only
    rw [hSpell]
    simp

/-- Witness for C7: the spec's concrete example. -/
theorem claim7_description_autofix_witness :
    checkDescription exampleConfig (str "add Python implementation") =
      some (str "Add Python implementation.",
        [str "PR description should start with capital letter: 'add Python implementation'",
         str "PR description should end with a dot: 'add Python implementation'"]) := by
  have h := claim7_description_autofix exampleConfig 'a' (str "dd Python implementation")
    (by decide) (by decide) (by decide) (by decide)
  exact h

lemma checkSpelling_single (c p t : Str) :
    checkSpelling (spellingOnlyConfig c p) t =
      match getSpellingMatch p t with
      | none => (t, [])
      | some m =>
        if m = c then (t, [])
        else (replaceFirstCI p c t,
          [str "'" ++ c ++ str "' should be used instead of '" ++ m ++ str "'"]) := by
  unfold checkSpelling spellingOnlyConfig
  simp only [List.foldl_cons, List.foldl_nil]
  rcases h : getSpellingMatch p t with _ | m <;> dsimp only
  all_goals first
  | rfl
  | (by_cases hm : m = c
     · rw [if_pos hm, if_pos hm]
     · rw [if_neg hm, if_neg hm, List.nil_append])

/-- C8 counterexample: with the single configured pair `("API", "api")`
and the text `FixApI and aPi.`, `check_spelling` reports the isolated
occurrence `aPi` but *replaces the first case-insensitive occurrence*,
which is nested inside the word `FixApI`: the output corrects a
non-isolated occurrence and leaves the isolated one unchanged, refuting
the claim that an occurrence is corrected only when it is an isolated
word. -/
theorem claim8_counterexample :
    checkSpelling
        { categories := [], changeTypes := [], expectedSpellings := [(str "API", str "api")],
          legacyVersion := none, targetRepo := [] }
        (str "FixApI and aPi.") =
      (str "FixAPI and aPi.", [str "'API' should be used instead of 'aPi'"]) ∧
    str "FixAPI and aPi." ≠ str "FixApI and API." := by
  constructor <;> decide

/-- C8 (amended): for a configured `(correct, pattern)` pair, the
checker fires on a text exactly when no case-insensitive occurrence of
the pattern lies inside a back-tick code span AND the first isolated
case-insensitive occurrence (bounded by start/end, whitespace, or
period) exists and differs from the correct spelling.  When it fires it
reports exactly one problem naming that first isolated occurrence and
replaces the pattern's first case-insensitive occurrence anywhere in the
text, isolated or not.  Concretely, with pattern `api`: nothing is
reported for `` Fix `aPi in codeblocks`. `` (code span), for
`FixApI in another word.` (no isolated occurrence), or for `Fix API.`
(the isolated occurrence already equals the correct spelling), while the
isolated `aPi` in `Fix aPi.` is replaced with exactly one problem. -/
theorem claim8_spelling_exclusions_amended :
    (∀ (p t m : Str), getSpellingMatch p t = some m →
      codeSpanHit p t = false ∧
        ∃ q, isolatedAt p t q = true ∧ m = sliceStr t q (q + p.length)) ∧
    (∀ (c p t : Str),
      (checkSpelling (spellingOnlyConfig c p) t).2 ≠ [] ↔
        codeSpanHit p t = false ∧ ∃ m, firstIsolated p t = some m ∧ m ≠ c) ∧
    (∀ (c p t m : Str), codeSpanHit p t = false → firstIsolated p t = some m → m ≠ c →
      checkSpelling (spellingOnlyConfig c p) t =
        (replaceFirstCI p c t,
         [str "'" ++ c ++ str "' should be used instead of '" ++ m ++ str "'"])) ∧
    (∀ (c p t : Str),
      codeSpanHit p t = true ∨ firstIsolated p t = none ∨ firstIsolated p t = some c →
      checkSpelling (spellingOnlyConfig c p) t = (t, [])) ∧
    (checkSpelling (spellingOnlyConfig (str "API") (str "api"))
        (str "Fix `aPi in codeblocks`.") = (str "Fix `aPi in codeblocks`.", [])) ∧
    (checkSpelling (spellingOnlyConfig (str "API") (str "api"))
        (str "FixApI in another word.") = (str "FixApI in another word.", [])) ∧
    (checkSpelling (spellingOnlyConfig (str "API") (str "api"))
        (str "Fix API.") = (str "Fix API.", [])) ∧
    (checkSpelling (spellingOnlyConfig (str "API") (str "api"))
        (str "Fix aPi.") = (str "Fix API.", [str "'API' should be used instead of 'aPi'"])) := by
  refine ⟨?_, ?_, ?_, ?_, by decide, by decide, by decide, by decide⟩
  · intro p t m h
    unfold getSpellingMatch at h
    by_cases hcs : codeSpanHit p t = true
    · rw [if_pos hcs] at h
      exact Option.noConfusion h
    · rw [if_neg hcs] at h
      refine ⟨Bool.eq_false_iff.mpr hcs, ?_⟩
      unfold firstIsolated at h
      rcases hh : ((List.range (t.length + 1)).filter (isolatedAt p t)).head? with _ | q <;>
        rw [hh] at h
      · rw [Option.map_none'] at h
        exact Option.noConfusion h
      · rw [Option.map_some'] at h
        simp only [Option.some.injEq] at h
        have hq : q ∈ (List.range (t.length + 1)).filter (isolatedAt p t) :=
          List.mem_of_mem_head? (by rw [hh]; exact Option.mem_def.mpr rfl)
        exact ⟨q, (List.mem_filter.mp hq).2, h.symm⟩
  · intro c p t
    rw [checkSpelling_single]
    rcases hg : getSpellingMatch p t with _ | m
    · dsimp only
      constructor
      · intro hne
        exact absurd rfl hne
      · rintro ⟨hcs, m, hfi, hne⟩
        unfold getSpellingMatch at hg
        rw [if_neg (by rw [hcs]; exact Bool.false_ne_true)] at hg
        rw [hg] at hfi
        exact Option.noConfusion hfi
    · dsimp only
      by_cases hm : m = c
      · rw [if_pos hm]
        dsimp only
        constructor
        · intro hne
          exact absurd rfl hne
        · rintro ⟨hcs, m2, hfi, hne2⟩
          unfold getSpellingMatch at hg
          rw [if_neg (by rw [hcs]; exact Bool.false_ne_true)] at hg
          rw [hg] at hfi
          simp only [Option.some.injEq] at hfi
          exact absurd (by rw [← hfi, hm]) hne2
      · rw [if_neg hm]
        dsimp only
        constructor
        · intro _
          unfold getSpellingMatch at hg
          by_cases hcs : codeSpanHit p t = true
          · rw [if_pos hcs] at hg
            exact Option.noConfusion hg
          · rw [if_neg hcs] at hg
            exact ⟨Bool.eq_false_iff.mpr hcs, m, hg, hm⟩
        · intro _
          simp
  · intro c p t m hcs hfi hne
    rw [checkSpelling_single]
    unfold getSpellingMatch
    rw [if_neg (by rw [hcs]; exact Bool.false_ne_true), hfi]
    dsimp only
    rw [if_neg hne]
  · intro c p t hdisj
    rw [checkSpelling_single]
    rcases hdisj with h | h | h
    · unfold getSpellingMatch
      rw [if_pos h]
    · unfold getSpellingMatch
      by_cases hcs : codeSpanHit p t = true
      · rw [if_pos hcs]
      · rw [if_neg hcs, h]
    · unfold getSpellingMatch
      by_cases hcs : codeSpanHit p t = true
      · rw [if_pos hcs]
      · rw [if_neg hcs, h]
        dsimp only
        rw [if_pos rfl]

/-- Witness for the firing conjunct of C8: the isolated `aPi` in
`Fix aPi.` differs from `API`, fires once, and is replaced. -/
theorem claim8_spelling_exclusions_amended_witness :
    codeSpanHit (str "api") (str "Fix aPi.") = false ∧
    firstIsolated (str "api") (str "Fix aPi.") = some (str "aPi") ∧
    (str "aPi") ≠ (str "API") ∧
    checkSpelling (spellingOnlyConfig (str "API") (str "api")) (str "Fix aPi.") =
      (replaceFirstCI (str "api") (str "API") (str "Fix aPi."),
       [str "'" ++ str "API" ++ str "' should be used instead of '" ++ str "aPi" ++ str "'"]) :=
  ⟨by decide, by decide, by decide,
    claim8_spelling_exclusions_amended.2.2.1 (str "API") (str "api") (str "Fix aPi.")
      (str "aPi") (by decide) (by decide) (by decide)⟩

/-- C10 (confirmed): version parsing succeeds only when every numeric
component fits in 8 bits (`u8` parses), `v1.0.300` is rejected, and a
release header accepted by the release grammar but carrying a component
above 255 makes the assembler's `is_legacy(..).expect(..)` panic and
abort the whole parse whenever any legacy version is configured. -/
theorem claim10_version_width_abort :
    (∀ (s : Str) (v : Version), versionParse s = .ok v →
      v.major ≤ 255 ∧ v.minor ≤ 255 ∧ v.patch ≤ 255 ∧
        ∀ rc, v.rcVersion = some rc → rc ≤ 255) ∧
    versionParse (str "v1.0.300") = .error .noInteger ∧
    (∀ (cfg : Config) (path : Str) (lv : Str), cfg.legacyVersion = some lv →
      parseChangelog cfg path [str "## [v1.0.300](link) - 2024-01-01"] = .panic) := by
  refine ⟨fun s v h => versionParse_ok_bounds h, by decide, ?_⟩
  intro cfg path lv hlv
  unfold parseChangelog runScan runScanAux
  have hstep : processLine cfg path 0 (str "## [v1.0.300](link) - 2024-01-01") initState =
      .panic := by
    rw [processLine_release rfl rfl (by decide) (by decide)]
    have hrm : releaseMatch (str "## [v1.0.300](link) - 2024-01-01") =
        some (str "v1.0.300", some (str "link"), str "2024-01-01") := by decide
    have hcu : checkUnreleased (str "## [v1.0.300](link) - 2024-01-01") = none := by decide
    unfold releaseParse
    rw [hcu, hrm]
    dsimp only
    unfold Release.isLegacy Release.isUnreleased Config.hasLegacyVersion
    rw [hlv]
    dsimp only
    rw [if_neg (by simp only [Option.isSome_some, Bool.not_true, Bool.or_false]; decide)]
    rcases h1 : versionParse lv with e | vl
    · rfl
    · dsimp only
      have : versionParse (str "v1.0.300") = .error .noInteger := by decide
      rw [this]
  rw [hstep]

/-- Witness for the legacy-abort conjunct of C10, at the example
configuration with `legacy_version = v1.0.0`. -/
theorem claim10_version_width_abort_witness :
    exampleLegacyConfig.legacyVersion = some (str "v1.0.0") ∧
      parseChangelog exampleLegacyConfig examplePath
        [str "## [v1.0.300](link) - 2024-01-01"] = .panic :=
  ⟨by decide, claim10_version_width_abort.2.2 exampleLegacyConfig examplePath
    (str "v1.0.0") (by decide)⟩

/-- C2 counterexample: a `-` line that fails the entry grammar is
recorded as exactly one problem and parsing continues, but the raw line
is *not* preserved in the canonical output: `get_fixed_contents` renders
only the structured releases, and the malformed line is absent from the
rendered lines. -/
theorem claim2_counterexample :
    (match parseChangelog exampleConfig examplePath
        [str "## Unreleased", str "### Bug Fixes", str "- invalid entry!"] with
     | .ok c => some (c.problems, renderLines c)
     | _ => none) =
      some ([str "CHANGELOG.md:3: invalid entry: - invalid entry!"],
        [str "# Changelog", [], str "## Unreleased", [], str "### Bug Fixes", []]) ∧
    ¬ (str "- invalid entry!") ∈
      [str "# Changelog", ([] : Str), str "## Unreleased", [], str "### Bug Fixes", []] := by
  constructor <;> decide

/-- C2 (amended): on a `-` line that fails the entry grammar, the
assembler records exactly one problem carrying the raw line (none when a
full-line escape is active), clears the escapes, touches no other state
(in particular the raw line is dropped from the canonical output, which
is built only from comments, releases and the legacy block), and never
aborts the parse. -/
theorem claim2_entry_grammar_failure (cfg : Config) (path : Str) (i : Nat) (line : Str)
    (st : ScanState)
    (hl : st.isLegacy = false) (hc : st.isComment = false)
    (hni : containsSub (str "<!--") (trimStr line) = false)
    (hd : (trimStr line).head? = some '-')
    (hfail : entryMatch line = none) :
    processLine cfg path i line st =
      .ok { st with
            problems :=
              if st.escapes.contains .fullLine then st.problems
              else st.problems ++ [fmtProblem path i (str "invalid entry: " ++ line)]
            escapes := [] } := by
  rw [processLine_entry hl hc hni hd]
  unfold entryParse
  rw [hfail]

/-- Witness for C2: the malformed line `- invalid entry!` at line index 2
of the initial state. -/
theorem claim2_entry_grammar_failure_witness :
    entryMatch (str "- invalid entry!") = none ∧
      processLine exampleConfig examplePath 2 (str "- invalid entry!") initState =
        .ok { initState with
              problems :=
                if initState.escapes.contains .fullLine then initState.problems
                else initState.problems ++
                  [fmtProblem examplePath 2 (str "invalid entry: " ++ str "- invalid entry!")]
              escapes := [] } :=
  ⟨by decide, claim2_entry_grammar_failure exampleConfig examplePath 2 (str "- invalid entry!")
    initState rfl rfl (by decide) (by decide) (by decide)⟩

/-- C4 (confirmed): duplicate-PR detection is whole-document: a release
header never resets the seen-PR set; an already-seen PR number on a
successfully parsed, unescaped entry produces exactly one duplicate-PR
problem, attributed to the second occurrence's line, while the entry is
still stored; and in the concrete two-release document both entries with
PR `5` are stored and exactly one duplicate problem is reported at the
second occurrence's line. -/
theorem claim4_duplicate_pr_whole_document :
    (∀ (cfg : Config) (path : Str) (i : Nat) (line : Str) (st st' : ScanState),
      st.isLegacy = false → st.isComment = false →
      containsSub (str "<!--") (trimStr line) = false →
      (str "## ").isPrefixOf (trimStr line) = true →
      processLine cfg path i line st = .ok st' →
      st'.seenPrs = st.seenPrs) ∧
    (∀ (cfg : Config) (path : Str) (i : Nat) (line : Str) (st : ScanState) (e : Entry)
        (rs : List Release),
      st.isLegacy = false → st.isComment = false →
      containsSub (str "<!--") (trimStr line) = false →
      (trimStr line).head? = some '-' →
      entryParse cfg line = .ok e →
      st.seenPrs.contains e.prNumber = true →
      st.escapes.contains .duplicatePR = false →
      st.escapes.contains .fullLine = false →
      pushEntry st.releases e = some rs →
      processLine cfg path i line st =
        .ok { st with
              releases := rs
              problems := st.problems ++
                [fmtProblem path i (str "duplicate PR: #" ++ natDigits e.prNumber)] ++
                e.problems.map (fmtProblem path i)
              escapes := [] } ∧
      fmtProblem path i (str "duplicate PR: #" ++ natDigits e.prNumber) ∉
        e.problems.map (fmtProblem path i) ∧
      ∃ r ct, rs.getLast? = some r ∧ r.changeTypes.getLast? = some ct ∧
        ct.entries.getLast? = some e) ∧
    ((match parseChangelog exampleConfig examplePath
        [str "## Unreleased",
         str "### Bug Fixes",
         str "- (cli) [#5](https://github.com/MalteHerrmann/changelog-utils/pull/5) Fix A.",
         str "## [v0.1.0](https://github.com/MalteHerrmann/changelog-utils/releases/tag/v0.1.0) - 2024-04-27",
         str "### Bug Fixes",
         str "- (cli) [#5](https://github.com/MalteHerrmann/changelog-utils/pull/5) Fix B."] with
      | .ok c => some (c.problems,
          c.releases.map (fun r => r.changeTypes.map (fun ct => ct.entries.length)))
      | _ => none) =
      some ([str "CHANGELOG.md:6: duplicate PR: #5"], [[1], [1]])) := by
  refine ⟨?_, ?_, by decide⟩
  · intro cfg path i line st st' hl hc hni hpre hrun
    rw [processLine_release hl hc hni hpre] at hrun
    rcases hr : releaseParse cfg line with _ | rel <;> rw [hr] at hrun <;> try dsimp only at hrun
    · exact StepRes.noConfusion hrun
    rcases hleg : rel.isLegacy cfg with e | leg <;> rw [hleg] at hrun <;> try dsimp only at hrun
    · exact StepRes.noConfusion hrun
    simp only [StepRes.ok.injEq] at hrun
    rw [← hrun]
  · intro cfg path i line st e rs hl hc hni hd hok hseen hnd hnf hpush
    refine ⟨?_, ?_, ?_⟩
    · rw [processLine_entry hl hc hni hd, hok]
      dsimp only
      rw [hpush]
      dsimp only
      simp only [hseen, hnd, hnf, Bool.false_eq_true, not_false_eq_true, and_self, and_true,
        true_and, if_true, if_false]
    · intro hmem
      rcases List.mem_map.mp hmem with ⟨q, hq, hfq⟩
      have hqe : q = str "duplicate PR: #" ++ natDigits e.prNumber := fmtProblem_inj hfq
      have hhead := entry_problems_head hok hq
      rw [hqe] at hhead
      have : (str "duplicate PR: #" ++ natDigits e.prNumber).head? = some 'd' := rfl
      rw [this] at hhead
      rcases hhead with h | h | h | h | h <;> simp at h
    · unfold pushEntry at hpush
      rcases hrl : st.releases.getLast? with _ | r <;> rw [hrl] at hpush <;>
        try dsimp only at hpush
      · exact Option.noConfusion hpush
      rcases hcl : r.changeTypes.getLast? with _ | ct <;> rw [hcl] at hpush <;>
        try dsimp only at hpush
      · exact Option.noConfusion hpush
      simp only [Option.some.injEq] at hpush
      subst hpush
      exact ⟨_, _, List.getLast?_concat _, List.getLast?_concat _, List.getLast?_concat _⟩

/-- Witness for the universally quantified conjuncts of C4, at the last
line of the concrete duplicate document. -/
theorem claim4_duplicate_pr_whole_document_witness :
    (∀ st', processLine exampleConfig examplePath 3
        (str "## [v0.1.0](https://github.com/MalteHerrmann/changelog-utils/releases/tag/v0.1.0) - 2024-04-27")
        { initState with seenPrs := [5] } = .ok st' → st'.seenPrs = [5]) ∧
      processLine exampleConfig examplePath 3
        (str "## [v0.1.0](https://github.com/MalteHerrmann/changelog-utils/releases/tag/v0.1.0) - 2024-04-27")
        { initState with seenPrs := [5] } ≠ .err := by
  constructor
  · intro st' h
    exact claim4_duplicate_pr_whole_document.1 exampleConfig examplePath 3 _ _ st'
      rfl rfl (by decide) (by decide) h
  · decide

/-- C5 counterexample: escape directives are NOT dropped when the next
content line is a header: after a `clu-disable-next-line` comment and an
intervening `### Bug Fixes` change-type header the scan state still
carries the escape, and the escape then suppresses the problem of the
malformed entry behind the header (the document yields no problems,
whereas without the escape comment the same document yields one). -/
theorem claim5_counterexample :
    (match runScan exampleConfig examplePath
        [str "## Unreleased",
         str "<!-- clu-disable-next-line -->",
         str "### Bug Fixes"] with
     | .ok st => some st.escapes
     | _ => none) = some [LinterEscape.fullLine] ∧
    (match parseChangelog exampleConfig examplePath
        [str "## Unreleased",
         str "<!-- clu-disable-next-line -->",
         str "### Bug Fixes",
         str "- malformed entry"] with
     | .ok c => some c.problems
     | _ => none) = some [] ∧
    (match parseChangelog exampleConfig examplePath
        [str "## Unreleased",
         str "### Bug Fixes",
         str "- malformed entry"] with
     | .ok c => some c.problems
     | _ => none) = some [str "CHANGELOG.md:3: invalid entry: - malformed entry"] := by
  refine ⟨by decide, by decide, by decide⟩

/-- C5 (amended): escape directives are one-shot but not header-scoped:
a comment line carrying a recognized directive appends it to the escape
state; release (`## `) and change-type (`### `) header lines preserve
the escape state unchanged rather than dropping it; the escapes are
consumed by the next `-` line, whose processing always clears them
whether or not it parses; an active full-line escape suppresses all
problems of that `-` line; and an active duplicate-PR escape suppresses
exactly the duplicate-PR problem, while the entry's own problems are
still recorded and the entry is stored. -/
theorem claim5_escape_scope_amended :
    (∀ (cfg : Config) (path : Str) (i : Nat) (line : Str) (st : ScanState),
      st.isLegacy = false →
      containsSub (str "<!--") (trimStr line) = true →
      containsSub (str "-->") (trimStr line) = true →
      processLine cfg path i line st =
        .ok { st with
              isComment := false
              comments := st.comments ++ [line]
              escapes := st.escapes ++ Option.toList (checkEscapePattern (trimStr line)) }) ∧
    (∀ (cfg : Config) (path : Str) (i : Nat) (line : Str) (st st' : ScanState),
      st.isLegacy = false → st.isComment = false →
      containsSub (str "<!--") (trimStr line) = false →
      ((str "## ").isPrefixOf (trimStr line) = true ∨
        (str "### ").isPrefixOf (trimStr line) = true) →
      processLine cfg path i line st = .ok st' →
      st'.escapes = st.escapes) ∧
    (∀ (cfg : Config) (path : Str) (i : Nat) (line : Str) (st st' : ScanState),
      st.isLegacy = false → st.isComment = false →
      containsSub (str "<!--") (trimStr line) = false →
      (trimStr line).head? = some '-' →
      processLine cfg path i line st = .ok st' →
      st'.escapes = []) ∧
    (∀ (cfg : Config) (path : Str) (i : Nat) (line : Str) (st st' : ScanState),
      st.isLegacy = false → st.isComment = false →
      containsSub (str "<!--") (trimStr line) = false →
      (trimStr line).head? = some '-' →
      st.escapes.contains .fullLine = true →
      processLine cfg path i line st = .ok st' →
      st'.problems = st.problems) ∧
    (∀ (cfg : Config) (path : Str) (i : Nat) (line : Str) (st : ScanState) (e : Entry)
        (rs : List Release),
      st.isLegacy = false → st.isComment = false →
      containsSub (str "<!--") (trimStr line) = false →
      (trimStr line).head? = some '-' →
      entryParse cfg line = .ok e →
      st.escapes.contains .duplicatePR = true →
      st.escapes.contains .fullLine = false →
      pushEntry st.releases e = some rs →
      processLine cfg path i line st =
        .ok { st with
              releases := rs
              seenPrs := st.seenPrs ++ [e.prNumber]
              problems := st.problems ++ e.problems.map (fmtProblem path i)
              escapes := [] }) := by
  refine ⟨?_, ?_, ?_, ?_, ?_⟩
  · intro cfg path i line st hl h1 h2
    exact processLine_comment_close hl (Or.inl h1) h2
  · intro cfg path i line st st' hl hc hni hpre hrun
    rcases hpre with hpre | hpre
    · rw [processLine_release hl hc hni hpre] at hrun
      rcases hr : releaseParse cfg line with _ | rel <;> rw [hr] at hrun <;> try dsimp only at hrun
      · exact StepRes.noConfusion hrun
      rcases hleg : rel.isLegacy cfg with e | leg <;> rw [hleg] at hrun <;>
        try dsimp only at hrun
      · exact StepRes.noConfusion hrun
      simp only [StepRes.ok.injEq] at hrun
      rw [← hrun]
    · rw [processLine_ct hl hc hni hpre] at hrun
      rcases hr : ctParse cfg line with _ | ct <;> rw [hr] at hrun <;> try dsimp only at hrun
      · exact StepRes.noConfusion hrun
      rcases hp : pushCT st.releases ct with _ | rs <;> rw [hp] at hrun <;>
        try dsimp only at hrun
      · exact StepRes.noConfusion hrun
      simp only [StepRes.ok.injEq] at hrun
      rw [← hrun]
  · intro cfg path i line st st' hl hc hni hd hrun
    rw [processLine_entry hl hc hni hd] at hrun
    rcases hr : entryParse cfg line with _ | l | e <;> rw [hr] at hrun <;> try dsimp only at hrun
    · exact StepRes.noConfusion hrun
    · simp only [StepRes.ok.injEq] at hrun
      rw [← hrun]
    · rcases hp : pushEntry st.releases e with _ | rs <;> rw [hp] at hrun <;>
        try dsimp only at hrun
      · exact StepRes.noConfusion hrun
      simp only [StepRes.ok.injEq] at hrun
      rw [← hrun]
  · intro cfg path i line st st' hl hc hni hd hfl hrun
    rw [processLine_entry hl hc hni hd] at hrun
    rcases hr : entryParse cfg line with _ | l | e <;> rw [hr] at hrun <;> try dsimp only at hrun
    · exact StepRes.noConfusion hrun
    · rw [if_pos hfl] at hrun
      simp only [StepRes.ok.injEq] at hrun
      rw [← hrun]
    · rcases hp : pushEntry st.releases e with _ | rs <;> rw [hp] at hrun <;>
        try dsimp only at hrun
      · exact StepRes.noConfusion hrun
      simp only [hfl, not_true_eq_false, and_false, false_and, if_false, if_true,
        List.append_nil, StepRes.ok.injEq] at hrun
      rw [← hrun]
  · intro cfg path i line st e rs hl hc hni hd hok hdup hnf hpush
    rw [processLine_entry hl hc hni hd, hok]
    dsimp only
    rw [hpush]
    dsimp only
    simp only [hdup, hnf, Bool.false_eq_true, not_true_eq_false, not_false_eq_true,
      false_and, and_false, true_and, and_true, if_true, if_false]

/-- Witness for C5: the comment line `<!-- clu-disable-next-line -->`
at the initial state appends the full-line escape. -/
theorem claim5_escape_scope_amended_witness :
    processLine exampleConfig examplePath 1 (str "<!-- clu-disable-next-line -->") initState =
      .ok { initState with
            isComment := false
            comments := initState.comments ++ [str "<!-- clu-disable-next-line -->"]
            escapes := initState.escapes ++
              Option.toList (checkEscapePattern (trimStr (str "<!-- clu-disable-next-line -->"))) } :=
  claim5_escape_scope_amended.1 exampleConfig examplePath 1 _ initState rfl (by decide) (by decide)

lemma entryStable_spec {cfg : Config} {e : Entry} (h : entryStable cfg e = true) :
    containsSub (str "<!--") (trimStr e.fixed) = false ∧
    (trimStr e.fixed).head? = some '-' ∧
    ∃ e2, entryParse cfg e.fixed = .ok e2 ∧ e2.fixed = e.fixed := by
  unfold entryStable at h
  rcases hp : entryParse cfg e.fixed with _ | l | e2 <;> rw [hp] at h <;>
    simp only [Bool.and_eq_true, Bool.not_eq_true', beq_iff_eq] at h
  · exact absurd h.2 (by simp)
  · exact absurd h.2 (by simp)
  · exact ⟨h.1.1, h.1.2, e2, rfl, h.2⟩

lemma ctStable_spec {cfg : Config} {ct : ChangeType} (h : ctStable cfg ct = true) :
    containsSub (str "<!--") (trimStr ct.fixed) = false ∧
    (str "### ").isPrefixOf (trimStr ct.fixed) = true ∧
    (∀ e ∈ ct.entries, entryStable cfg e = true) ∧
    ∃ ct2, ctParse cfg ct.fixed = .ok ct2 ∧ ct2.fixed = ct.fixed ∧ ct2.entries = [] := by
  unfold ctStable at h
  rcases hp : ctParse cfg ct.fixed with _ | ct2 <;> rw [hp] at h <;>
    simp only [Bool.and_eq_true, Bool.not_eq_true', beq_iff_eq, List.all_eq_true,
      List.isEmpty_iff] at h
  · exact absurd h.1.2 (by simp)
  · exact ⟨h.1.1.1, h.1.1.2, h.2, ct2, rfl, h.1.2.1, h.1.2.2⟩

lemma releaseHeaderStable_spec {cfg : Config} {r : Release} {leg : Bool}
    (h : releaseHeaderStable cfg r leg = true) :
    containsSub (str "<!--") (trimStr r.fixed) = false ∧
    (str "## ").isPrefixOf (trimStr r.fixed) = true ∧
    ∃ r2, releaseParse cfg r.fixed = .ok r2 ∧ r2.fixed = r.fixed ∧ r2.changeTypes = [] ∧
      r2.isLegacy cfg = .ok leg := by
  unfold releaseHeaderStable at h
  rcases hp : releaseParse cfg r.fixed with _ | r2 <;> rw [hp] at h <;>
    simp only [Bool.and_eq_true, Bool.not_eq_true', beq_iff_eq, List.isEmpty_iff] at h
  · exact absurd h.2 (by simp)
  · rcases hleg : r2.isLegacy cfg with e | b <;> rw [hleg] at h <;>
      simp only [Bool.and_eq_true, beq_iff_eq] at h
    · exact absurd h.2.2 (by simp)
    · exact ⟨h.1.1, h.1.2, r2, rfl, h.2.1.1, h.2.1.2, by rw [← h.2.2]; exact hleg⟩

lemma releaseStable_spec {cfg : Config} {r : Release} (h : releaseStable cfg r = true) :
    containsSub (str "<!--") (trimStr r.fixed) = false ∧
    (str "## ").isPrefixOf (trimStr r.fixed) = true ∧
    (∀ ct ∈ r.changeTypes, ctStable cfg ct = true) ∧
    ∃ r2, releaseParse cfg r.fixed = .ok r2 ∧ r2.fixed = r.fixed ∧ r2.changeTypes = [] ∧
      r2.isLegacy cfg = .ok false := by
  unfold releaseStable at h
  rw [Bool.and_eq_true] at h
  obtain ⟨h1, h2⟩ := h
  obtain ⟨ha, hb, hex⟩ := releaseHeaderStable_spec h1
  exact ⟨ha, hb, List.all_eq_true.mp h2, hex⟩

lemma runScanAux_append (cfg : Config) (path : Str) (xs ys : List Str) :
    ∀ (i : Nat) (st : ScanState),
    runScanAux cfg path i (xs ++ ys) st =
      match runScanAux cfg path i xs st with
      | .ok st' => runScanAux cfg path (i + xs.length) ys st'
      | .err => .err
      | .panic => .panic := by
  induction xs with
  | nil => intro i st; rfl
  | cons x xs ih =>
    intro i st
    rw [List.cons_append]
    simp only [runScanAux]
    rcases h : processLine cfg path i x st with st1 | _ | _ <;> dsimp only
    · rw [ih]
      have hlen : i + (x :: xs).length = (i + 1) + xs.length := by
        simp only [List.length_cons]
        omega
      rw [hlen]
    all_goals rfl

lemma processLine_blank {cfg : Config} {path : Str} {i : Nat} {st : ScanState}
    (hl : st.isLegacy = false) (hc : st.isComment = false) :
    processLine cfg path i [] st = .ok st :=
  processLine_skip hl hc (by decide) (by decide) (by decide) (by decide)

lemma processLine_title {cfg : Config} {path : Str} {i : Nat} {st : ScanState}
    (hl : st.isLegacy = false) (hc : st.isComment = false) :
    processLine cfg path i (str "# Changelog") st = .ok st :=
  processLine_skip hl hc (by decide) (by decide) (by decide) (by decide)

lemma runScan_legacy (cfg : Config) (path : Str) (ls : List Str) :
    ∀ (i : Nat) (st : ScanState), st.isLegacy = true →
    runScanAux cfg path i ls st =
      .ok { st with legacyContents := st.legacyContents ++ ls } := by
  induction ls with
  | nil => intro i st _; simp [runScanAux]
  | cons l ls ih =>
    intro i st h
    simp only [runScanAux]
    rw [processLine_legacy h]
    dsimp only
    rw [ih (i + 1) { st with legacyContents := st.legacyContents ++ [l] } h]
    dsimp only
    rw [List.append_assoc]
    rfl

lemma runScan_comments (cfg : Config) (path : Str) :
    ∀ (ls : List Str) (i : Nat) (st : ScanState) (b : Bool),
      st.isLegacy = false → commentsReplay st.isComment ls = some b →
      ∃ st', runScanAux cfg path i ls st = .ok st' ∧
        st'.comments = st.comments ++ ls ∧ st'.isComment = b ∧ st'.isLegacy = false ∧
        st'.releases = st.releases ∧ st'.legacyContents = st.legacyContents := by
  intro ls
  induction ls with
  | nil =>
    intro i st b hl hr
    simp only [commentsReplay, Option.some.injEq] at hr
    exact ⟨st, by simp [runScanAux], by simp, by rw [← hr], hl, rfl, rfl⟩
  | cons l ls ih =>
    intro i st b hl hr
    simp only [commentsReplay] at hr
    rcases hs : commentStep st.isComment l with _ | b2 <;> rw [hs] at hr <;> dsimp only at hr
    · exact absurd hr (by simp)
    unfold commentStep at hs
    by_cases hcond : (st.isComment || containsSub (str "<!--") (trimStr l)) = true
    · rw [if_pos hcond] at hs
      have hb2 : b2 = !containsSub (str "-->") (trimStr l) := by
        simpa using hs.symm
      have hor : containsSub (str "<!--") (trimStr l) = true ∨ st.isComment = true := by
        rcases Bool.or_eq_true _ _ |>.mp hcond with hcase | hcase
        · exact Or.inr hcase
        · exact Or.inl hcase
      rcases hx : containsSub (str "-->") (trimStr l) with _ | _
      · have hb2' : b2 = true := by rw [hb2, hx]; rfl
        obtain ⟨st', h1, h2, h3, h4, h5, h6⟩ :=
          ih (i + 1)
            { st with
              isComment := true
              comments := st.comments ++ [l] } b hl
            (by rw [hb2'] at hr; exact hr)
        refine ⟨st', ?_, ?_, h3, h4, h5, h6⟩
        · simp only [runScanAux]
          rw [processLine_comment_inside hl hor hx]
          dsimp only
          exact h1
        · rw [h2]
          dsimp only
          rw [List.append_assoc]
          rfl
      · have hb2' : b2 = false := by rw [hb2, hx]; rfl
        obtain ⟨st', h1, h2, h3, h4, h5, h6⟩ :=
          ih (i + 1)
            { st with
              isComment := false
              comments := st.comments ++ [l]
              escapes := st.escapes ++ Option.toList (checkEscapePattern (trimStr l)) } b hl
            (by rw [hb2'] at hr; exact hr)
        refine ⟨st', ?_, ?_, h3, h4, h5, h6⟩
        · simp only [runScanAux]
          rw [processLine_comment_close hl hor hx]
          dsimp only
          exact h1
        · rw [h2]
          dsimp only
          rw [List.append_assoc]
          rfl
    · rw [if_neg hcond] at hs
      exact Option.noConfusion hs

lemma eq_dropLast_concat_of_getLast {α : Type} {l : List α} {a : α}
    (h : l.getLast? = some a) : l = l.dropLast ++ [a] := by
  induction l using List.reverseRecOn with
  | nil => exact absurd h (by simp)
  | append_singleton xs x _ =>
    rw [List.getLast?_concat] at h
    simp only [Option.some.injEq] at h
    rw [h, List.dropLast_concat]

lemma runScanAux_step (cfg : Config) (path : Str) (i : Nat) (l : Str) (ls : List Str)
    (st st1 : ScanState) (h : processLine cfg path i l st = .ok st1) :
    runScanAux cfg path i (l :: ls) st = runScanAux cfg path (i + 1) ls st1 := by
  simp only [runScanAux]
  rw [h]

lemma runScanAux_blank (cfg : Config) (path : Str) (i : Nat) (ls : List Str)
    (st : ScanState) (hl : st.isLegacy = false) (hc : st.isComment = false) :
    runScanAux cfg path i (([] : Str) :: ls) st = runScanAux cfg path (i + 1) ls st :=
  runScanAux_step cfg path i [] ls st st (processLine_blank hl hc)

lemma scan_entries (cfg : Config) (path : Str) :
    ∀ (es : List Entry) (i : Nat) (st : ScanState) (R : List Release) (r : Release)
      (C : List ChangeType) (ct : ChangeType),
      (∀ e ∈ es, entryStable cfg e = true) →
      st.isComment = false → st.isLegacy = false →
      st.releases = R ++ [r] → r.changeTypes = C ++ [ct] →
      ∃ st' es',
        runScanAux cfg path i (es.map (fun e => e.fixed)) st = .ok st' ∧
        st'.releases = R ++ [{ r with changeTypes :=
          C ++ [{ ct with entries := ct.entries ++ es' }] }] ∧
        es'.map (fun e => e.fixed) = es.map (fun e => e.fixed) ∧
        st'.comments = st.comments ∧ st'.legacyContents = st.legacyContents ∧
        st'.isComment = false ∧ st'.isLegacy = false := by
  intro es
  induction es with
  | nil =>
    intro i st R r C ct _ hc hl hr hct
    refine ⟨st, [], by simp [runScanAux], ?_, rfl, rfl, rfl, hc, hl⟩
    rw [hr]
    simp only [List.append_nil]
    rw [← hct]
  | cons e es ih =>
    intro i st R r C ct hall hc hl hr hct
    obtain ⟨hni, hd, e2, hp, hfix⟩ := entryStable_spec (hall e (by simp))
    have hpush : pushEntry st.releases e2 =
        some (R ++ [{ r with changeTypes :=
          C ++ [{ ct with entries := ct.entries ++ [e2] }] }]) := by
      unfold pushEntry
      rw [hr, List.getLast?_concat]
      dsimp only
      rw [hct, List.getLast?_concat]
      dsimp only
      rw [List.dropLast_concat, List.dropLast_concat]
    obtain ⟨st', es', h1, h2, h3, h4, h5, h6, h7⟩ :=
      ih (i + 1)
        { st with
          releases := R ++ [{ r with changeTypes :=
            C ++ [{ ct with entries := ct.entries ++ [e2] }] }]
          seenPrs :=
            if st.seenPrs.contains e2.prNumber ∧
                (¬ st.escapes.contains .duplicatePR ∧ ¬ st.escapes.contains .fullLine) then
              st.seenPrs
            else st.seenPrs ++ [e2.prNumber]
          problems :=
            (if st.seenPrs.contains e2.prNumber ∧
                (¬ st.escapes.contains .duplicatePR ∧ ¬ st.escapes.contains .fullLine) then
              st.problems ++ [fmtProblem path i (str "duplicate PR: #" ++ natDigits e2.prNumber)]
             else st.problems) ++
            (if st.escapes.contains .fullLine then [] else e2.problems.map (fmtProblem path i))
          escapes := [] }
        R { r with changeTypes := C ++ [{ ct with entries := ct.entries ++ [e2] }] }
        C { ct with entries := ct.entries ++ [e2] }
        (fun e' he' => hall e' (by simp [he'])) hc hl rfl rfl
    refine ⟨st', e2 :: es', ?_, ?_, ?_, ?_, ?_, h6, h7⟩
    · simp only [List.map_cons, runScanAux]
      rw [processLine_entry hl hc hni hd, hp]
      dsimp only
      rw [hpush]
      dsimp only
      exact h1
    · rw [h2]
      dsimp only
      simp only [List.append_assoc, List.singleton_append]
    · simp only [List.map_cons]
      rw [h3, hfix]
    · exact h4
    · exact h5

lemma scan_cts (cfg : Config) (path : Str) :
    ∀ (cts : List ChangeType) (i : Nat) (st : ScanState) (R : List Release) (r : Release),
      (∀ ct ∈ cts, ctStable cfg ct = true) →
      st.isComment = false → st.isLegacy = false →
      st.releases = R ++ [r] →
      ∃ st' cts',
        runScanAux cfg path i (cts.flatMap (fun ct => [[]] ++ ctLines ct)) st = .ok st' ∧
        st'.releases = R ++ [{ r with changeTypes := r.changeTypes ++ cts' }] ∧
        cts'.flatMap (fun ct => [[]] ++ ctLines ct) =
          cts.flatMap (fun ct => [[]] ++ ctLines ct) ∧
        st'.comments = st.comments ∧ st'.legacyContents = st.legacyContents ∧
        st'.isComment = false ∧ st'.isLegacy = false := by
  intro cts
  induction cts with
  | nil =>
    intro i st R r _ hc hl hr
    refine ⟨st, [], by simp [runScanAux], ?_, rfl, rfl, rfl, hc, hl⟩
    rw [hr]
    simp [List.append_nil]
  | cons ct cts ih =>
    intro i st R r hall hc hl hr
    obtain ⟨hni, hpre, hents, ct2, hparse, hfix, hempty⟩ := ctStable_spec (hall ct (by simp))
    have hpushct : pushCT st.releases ct2 =
        some (R ++ [{ r with changeTypes := r.changeTypes ++ [ct2] }]) := by
      unfold pushCT
      rw [hr, List.getLast?_concat]
      dsimp only
      rw [List.dropLast_concat]
    have hstep2 : processLine cfg path (i + 1) ct.fixed st =
        .ok { st with
              releases := R ++ [{ r with changeTypes := r.changeTypes ++ [ct2] }]
              problems :=
                (if st.seenChangeTypes.contains ct2.name then
                  st.problems ++ [fmtProblem path (i + 1)
                    (str "duplicate change type in release " ++ st.curVersion ++
                      str ": " ++ ct2.name)]
                 else st.problems) ++ ct2.problems.map (fmtProblem path (i + 1))
              seenChangeTypes :=
                if st.seenChangeTypes.contains ct2.name then st.seenChangeTypes
                else st.seenChangeTypes ++ [ct2.name] } := by
      rw [processLine_ct hl hc hni hpre, hparse]
      dsimp only
      rw [hpushct]
    obtain ⟨st2, es', g1, g2, g3, g4, g5, g6, g7⟩ :=
      scan_entries cfg path ct.entries (i + 1 + 1 + 1)
        { st with
          releases := R ++ [{ r with changeTypes := r.changeTypes ++ [ct2] }]
          problems :=
            (if st.seenChangeTypes.contains ct2.name then
              st.problems ++ [fmtProblem path (i + 1)
                (str "duplicate change type in release " ++ st.curVersion ++
                  str ": " ++ ct2.name)]
             else st.problems) ++ ct2.problems.map (fmtProblem path (i + 1))
          seenChangeTypes :=
            if st.seenChangeTypes.contains ct2.name then st.seenChangeTypes
            else st.seenChangeTypes ++ [ct2.name] }
        R { r with changeTypes := r.changeTypes ++ [ct2] } r.changeTypes ct2
        hents hc hl rfl rfl
    obtain ⟨st3, cts', k1, k2, k3, k4, k5, k6, k7⟩ :=
      ih (i + 1 + 1 + 1 + (ct.entries.map (fun e => e.fixed)).length) st2 R
        { r with changeTypes := r.changeTypes ++
            [{ ct2 with entries := ct2.entries ++ es' }] }
        (fun ct' hct' => hall ct' (by simp [hct'])) g6 g7 g2
    refine ⟨st3, { ct2 with entries := ct2.entries ++ es' } :: cts', ?_, ?_, ?_, ?_, ?_, k6, k7⟩
    · have hlines : (ct :: cts).flatMap (fun ct => [[]] ++ ctLines ct) =
          [] :: ct.fixed :: [] :: ((ct.entries.map (fun e => e.fixed)) ++
            cts.flatMap (fun ct => [[]] ++ ctLines ct)) := by
        simp [ctLines, List.flatMap_cons]
      rw [hlines,
        runScanAux_step cfg path i [] _ st st (processLine_blank hl hc),
        runScanAux_step cfg path (i + 1) ct.fixed _ st _ hstep2]
      simp only [runScanAux_blank, hl, hc]
      simp only [hl, hc] at g1
      rw [runScanAux_append, g1]
      dsimp only
      exact k1
    · rw [k2]
      dsimp only
      simp only [List.append_assoc, List.singleton_append]
    · simp only [List.flatMap_cons]
      rw [k3]
      have hctl : ctLines { ct2 with entries := ct2.entries ++ es' } = ctLines ct := by
        unfold ctLines
        dsimp only
        rw [hempty, List.nil_append, hfix, g3]
      rw [hctl]
    · rw [g4] at k4
      exact k4
    · rw [g5] at k5
      exact k5

lemma scan_releases (cfg : Config) (path : Str) :
    ∀ (rels : List Release) (i : Nat) (st : ScanState),
      (∀ r ∈ rels, releaseStable cfg r = true) →
      st.isComment = false → st.isLegacy = false →
      ∃ st' rels',
        runScanAux cfg path i (rels.flatMap (fun r => [[]] ++ releaseLines r)) st = .ok st' ∧
        st'.releases = st.releases ++ rels' ∧
        rels'.flatMap (fun r => [[]] ++ releaseLines r) =
          rels.flatMap (fun r => [[]] ++ releaseLines r) ∧
        st'.comments = st.comments ∧ st'.legacyContents = st.legacyContents ∧
        st'.isComment = false ∧ st'.isLegacy = false := by
  intro rels
  induction rels with
  | nil =>
    intro i st _ hc hl
    exact ⟨st, [], by simp [runScanAux], by simp, rfl, rfl, rfl, hc, hl⟩
  | cons r rels ih =>
    intro i st hall hc hl
    obtain ⟨hni, hpre, hcts, r2, hparse, hfix, hcts2, hleg⟩ := releaseStable_spec (hall r (by simp))
    have hstep2 : processLine cfg path (i + 1) r.fixed st =
        .ok { st with
              releases := st.releases ++ [r2]
              curVersion := r2.version
              problems :=
                (if st.seenReleases.contains r2.version then
                  st.problems ++ [fmtProblem path (i + 1) (str "duplicate release: " ++ r2.version)]
                 else st.problems) ++ r2.problems.map (fmtProblem path (i + 1))
              seenReleases :=
                if st.seenReleases.contains r2.version then st.seenReleases
                else st.seenReleases ++ [r2.version]
              seenChangeTypes := []
              isLegacy := false } := by
      rw [processLine_release hl hc hni hpre, hparse]
      dsimp only
      rw [hleg]
    obtain ⟨st2, cts', g1, g2, g3, g4, g5, g6, g7⟩ :=
      scan_cts cfg path r.changeTypes (i + 1 + 1)
        { st with
          releases := st.releases ++ [r2]
          curVersion := r2.version
          problems :=
            (if st.seenReleases.contains r2.version then
              st.problems ++ [fmtProblem path (i + 1) (str "duplicate release: " ++ r2.version)]
             else st.problems) ++ r2.problems.map (fmtProblem path (i + 1))
          seenReleases :=
            if st.seenReleases.contains r2.version then st.seenReleases
            else st.seenReleases ++ [r2.version]
          seenChangeTypes := []
          isLegacy := false }
        st.releases r2 hcts hc rfl rfl
    obtain ⟨st3, rels', k1, k2, k3, k4, k5, k6, k7⟩ :=
      ih (i + 1 + 1 + (r.changeTypes.flatMap (fun ct => [[]] ++ ctLines ct)).length) st2
        (fun r' hr' => hall r' (by simp [hr'])) g6 g7
    rw [hcts2, List.nil_append] at g2
    refine ⟨st3, { r2 with changeTypes := cts' } :: rels', ?_, ?_, ?_, ?_, ?_, k6, k7⟩
    · have hlines : (r :: rels).flatMap (fun r => [[]] ++ releaseLines r) =
          [] :: r.fixed :: (r.changeTypes.flatMap (fun ct => [[]] ++ ctLines ct) ++
            rels.flatMap (fun r => [[]] ++ releaseLines r)) := by
        simp [releaseLines, List.flatMap_cons]
      rw [hlines,
        runScanAux_step cfg path i [] _ st st (processLine_blank hl hc),
        runScanAux_step cfg path (i + 1) r.fixed _ st _ hstep2]
      rw [runScanAux_append, g1]
      dsimp only
      rw [k1]
    · rw [k2, g2]
      simp only [List.append_assoc, List.singleton_append]
    · simp only [List.flatMap_cons]
      rw [k3]
      have hrl : releaseLines { r2 with changeTypes := cts' } = releaseLines r := by
        unfold releaseLines
        dsimp only
        rw [hfix, g3]
      rw [hrl]
    · rw [g4] at k4
      exact k4
    · rw [g5] at k5
      exact k5

lemma runScanAux_release_step (cfg : Config) (path : Str) (i : Nat) (line : Str) (ls : List Str)
    (st : ScanState) (r2 : Release) (leg : Bool)
    (hl : st.isLegacy = false) (hc : st.isComment = false)
    (hni : containsSub (str "<!--") (trimStr line) = false)
    (hpre : (str "## ").isPrefixOf (trimStr line) = true)
    (hparse : releaseParse cfg line = .ok r2)
    (hleg : r2.isLegacy cfg = .ok leg) :
    runScanAux cfg path i (line :: ls) st =
      runScanAux cfg path (i + 1) ls
        { st with
          releases := st.releases ++ [r2]
          curVersion := r2.version
          problems :=
            (if st.seenReleases.contains r2.version then
              st.problems ++ [fmtProblem path i (str "duplicate release: " ++ r2.version)]
             else st.problems) ++ r2.problems.map (fmtProblem path i)
          seenReleases :=
            if st.seenReleases.contains r2.version then st.seenReleases
            else st.seenReleases ++ [r2.version]
          seenChangeTypes := []
          isLegacy := leg } := by
  refine runScanAux_step cfg path i line ls st _ ?_
  rw [processLine_release hl hc hni hpre, hparse]
  dsimp only
  rw [hleg]

/-- C1 counterexample: the fix/serialize step is not idempotent on every
successfully parsed document.  A document ending in an unclosed comment
parses fine, but its canonical rendering starts with the hoisted comment
line, so the second parse treats the whole rendered document as one open
comment and the second rendering appends another `# Changelog` title:
`f(f(d))` has five lines where `f(d)` has four. -/
theorem claim1_counterexample :
    (match parseChangelog exampleConfig examplePath
        [str "## Unreleased", str "text <!-- unclosed"] with
     | .ok c =>
       match parseChangelog exampleConfig examplePath (renderLines c) with
       | .ok c2 => some (renderLines c, renderLines c2)
       | _ => none
     | _ => none) =
      some ([str "text <!-- unclosed", str "# Changelog", [], str "## Unreleased"],
            [str "text <!-- unclosed", str "# Changelog", [], str "## Unreleased",
             str "# Changelog"]) ∧
    ([str "text <!-- unclosed", str "# Changelog", [], str "## Unreleased"] :
        List Str) ≠
      [str "text <!-- unclosed", str "# Changelog", [], str "## Unreleased",
       str "# Changelog"] := by
  exact ⟨by decide, by decide⟩

/-- C1 (amended): the fix/serialize step is idempotent on stable parsed
changelogs: if a document parses to a changelog `c` whose comment block
replays closed, whose releases, change types and entries all reparse to
values with the same fixed lines, and whose legacy tail sits behind a
final legacy release header without change types, then reparsing the
canonical rendering of `c` succeeds and renders byte-identically
(`f(f(d)) = f(d)`). -/
theorem claim1_fix_idempotent (cfg : Config) (path : Str) (d : List Str) (c : Changelog)
    (hp : parseChangelog cfg path d = .ok c)
    (hs : changelogStable cfg c = true) :
    ∃ c', parseChangelog cfg path (renderLines c) = .ok c' ∧
      renderLines c' = renderLines c ∧
      getFixedContents c' = getFixedContents c := by
  clear hp
  unfold changelogStable at hs
  simp only [Bool.and_eq_true, beq_iff_eq, Bool.or_eq_true] at hs
  obtain ⟨hcomm, hrest⟩ := hs
  have hsplit : renderLines c = c.comments ++ ((str "# Changelog") ::
      (c.releases.flatMap (fun r => [[]] ++ releaseLines r) ++ c.legacyContents)) := by
    unfold renderLines
    simp [List.append_assoc, List.singleton_append]
  obtain ⟨st1, h1run, h1com, h1ic, h1il, h1rel, h1leg⟩ :=
    runScan_comments cfg path c.comments 0 initState false rfl hcomm
  rcases hrest with ⟨hall, hlegempty⟩ | hlegshape
  · rw [List.all_eq_true] at hall
    rw [List.isEmpty_iff] at hlegempty
    obtain ⟨st2, rels', h2run, h2rel, h2flat, h2com, h2leg, h2ic, h2il⟩ :=
      scan_releases cfg path c.releases (0 + c.comments.length + 1) st1 hall h1ic h1il
    have hrunF : runScan cfg path (renderLines c) = .ok st2 := by
      unfold runScan
      rw [hsplit, runScanAux_append, h1run]
      dsimp only
      rw [runScanAux_step cfg path (0 + c.comments.length) (str "# Changelog") _ st1 st1
        (processLine_title h1il h1ic)]
      rw [hlegempty, List.append_nil, h2run]
    have hcom2 : st2.comments = c.comments := by
      rw [h2com, h1com]
      rfl
    have hrel2 : st2.releases = rels' := by
      rw [h2rel, h1rel]
      rfl
    have hleg3 : st2.legacyContents = [] := by
      rw [h2leg, h1leg]
      rfl
    have hrender : renderLines
        ⟨path, st2.comments, st2.legacyContents, st2.releases, st2.problems⟩ =
        renderLines c := by
      unfold renderLines
      dsimp only
      rw [hcom2, hrel2, hleg3, h2flat, hlegempty]
    refine ⟨⟨path, st2.comments, st2.legacyContents, st2.releases, st2.problems⟩,
      ?_, hrender, ?_⟩
    · unfold parseChangelog
      rw [hrunF]
    · unfold getFixedContents
      rw [hrender]
  · rcases hlast : c.releases.getLast? with _ | r
    · rw [hlast] at hlegshape
      exact absurd hlegshape (by simp)
    rw [hlast] at hlegshape
    dsimp only at hlegshape
    rw [Bool.and_eq_true, Bool.and_eq_true] at hlegshape
    obtain ⟨hdrop, hhead, hempt⟩ := hlegshape
    rw [List.all_eq_true] at hdrop
    rw [List.isEmpty_iff] at hempt
    obtain ⟨hni, hpre, r2, hparse, hfix, hcts2, hlegok⟩ := releaseHeaderStable_spec hhead
    have hdecomp : c.releases = c.releases.dropLast ++ [r] := eq_dropLast_concat_of_getLast hlast
    obtain ⟨st2, rels', h2run, h2rel, h2flat, h2com, h2leg, h2ic, h2il⟩ :=
      scan_releases cfg path c.releases.dropLast (0 + c.comments.length + 1) st1 hdrop h1ic h1il
    have hlist : c.releases.flatMap (fun r => [[]] ++ releaseLines r) ++ c.legacyContents =
        c.releases.dropLast.flatMap (fun r => [[]] ++ releaseLines r) ++
          (([] : Str) :: r.fixed :: c.legacyContents) := by
      conv_lhs => rw [hdecomp]
      rw [List.flatMap_append]
      simp [releaseLines, hempt]
    have hrunF : runScan cfg path (renderLines c) =
        .ok { st2 with
              legacyContents := st2.legacyContents ++ c.legacyContents
              releases := st2.releases ++ [r2]
              problems :=
                (if st2.seenReleases.contains r2.version then
                  st2.problems ++ [fmtProblem path (0 + c.comments.length + 1 +
                    (c.releases.dropLast.flatMap (fun r => [[]] ++ releaseLines r)).length + 1)
                    (str "duplicate release: " ++ r2.version)]
                 else st2.problems) ++
                r2.problems.map (fmtProblem path (0 + c.comments.length + 1 +
                  (c.releases.dropLast.flatMap (fun r => [[]] ++ releaseLines r)).length + 1))
              curVersion := r2.version
              seenReleases :=
                if st2.seenReleases.contains r2.version then st2.seenReleases
                else st2.seenReleases ++ [r2.version]
              seenChangeTypes := []
              isLegacy := true } := by
      unfold runScan
      rw [hsplit, runScanAux_append, h1run]
      dsimp only
      rw [runScanAux_step cfg path (0 + c.comments.length) (str "# Changelog") _ st1 st1
        (processLine_title h1il h1ic)]
      rw [hlist, runScanAux_append, h2run]
      dsimp only
      rw [runScanAux_blank cfg path _ _ st2 h2il h2ic]
      rw [runScanAux_release_step cfg path _ r.fixed _ st2 r2 true h2il h2ic hni hpre
        hparse hlegok]
      rw [runScan_legacy cfg path c.legacyContents]
      all_goals rfl
    obtain ⟨stF, hrunF2, hFcom, hFrel, hFleg⟩ :
        ∃ stF, runScan cfg path (renderLines c) = .ok stF ∧
          stF.comments = st2.comments ∧ stF.releases = st2.releases ++ [r2] ∧
          stF.legacyContents = st2.legacyContents ++ c.legacyContents :=
      ⟨_, hrunF, rfl, rfl, rfl⟩
    have hcom2 : stF.comments = c.comments := by
      rw [hFcom, h2com, h1com]
      rfl
    have hrel2 : stF.releases = rels' ++ [r2] := by
      rw [hFrel, h2rel, h1rel]
      rfl
    have hleg3 : stF.legacyContents = c.legacyContents := by
      rw [hFleg, h2leg, h1leg]
      rfl
    have hrender : renderLines
        ⟨path, stF.comments, stF.legacyContents, stF.releases, stF.problems⟩ =
        renderLines c := by
      unfold renderLines
      dsimp only
      rw [hcom2, hrel2, hleg3]
      conv_rhs => rw [hdecomp]
      rw [List.flatMap_append, List.flatMap_append, h2flat]
      have h1 : [r2].flatMap (fun r => [[]] ++ releaseLines r) =
          [r].flatMap (fun r => [[]] ++ releaseLines r) := by
        simp [releaseLines, hcts2, hempt, hfix]
      rw [h1]
    refine ⟨⟨path, stF.comments, stF.legacyContents, stF.releases, stF.problems⟩,
      ?_, hrender, ?_⟩
    · unfold parseChangelog
      rw [hrunF2]
    · unfold getFixedContents
      rw [hrender]




/-- Witness for C1: a one-release document parses to a stable changelog,
and reparsing its rendering reproduces it byte for byte. -/
theorem claim1_fix_idempotent_witness :
    parseChangelog exampleConfig examplePath
        [str "## Unreleased", str "### Bug Fixes",
         str "- (cli) [#1](https://github.com/MalteHerrmann/changelog-utils/pull/1) Fix A."] =
      .ok {
              path := examplePath
              comments := []
              legacyContents := []
              releases := [{
                line := str "## Unreleased"
                fixed := str "## Unreleased"
                version := str "Unreleased"
                changeTypes := [{
                  name := str "Bug Fixes"
                  fixed := str "### Bug Fixes"
                  problems := []
                  entries := [{
                    category := str "cli"
                    fixed := str "- (cli) [#1](https://github.com/MalteHerrmann/changelog-utils/pull/1) Fix A."
                    prNumber := 1
                    problems := [] }] }]
                problems := [] }]
              problems := [] } ∧
    changelogStable exampleConfig {
              path := examplePath
              comments := []
              legacyContents := []
              releases := [{
                line := str "## Unreleased"
                fixed := str "## Unreleased"
                version := str "Unreleased"
                changeTypes := [{
                  name := str "Bug Fixes"
                  fixed := str "### Bug Fixes"
                  problems := []
                  entries := [{
                    category := str "cli"
                    fixed := str "- (cli) [#1](https://github.com/MalteHerrmann/changelog-utils/pull/1) Fix A."
                    prNumber := 1
                    problems := [] }] }]
                problems := [] }]
              problems := [] } = true ∧
    ∃ c', parseChangelog exampleConfig examplePath (renderLines {
              path := examplePath
              comments := []
              legacyContents := []
              releases := [{
                line := str "## Unreleased"
                fixed := str "## Unreleased"
                version := str "Unreleased"
                changeTypes := [{
                  name := str "Bug Fixes"
                  fixed := str "### Bug Fixes"
                  problems := []
                  entries := [{
                    category := str "cli"
                    fixed := str "- (cli) [#1](https://github.com/MalteHerrmann/changelog-utils/pull/1) Fix A."
                    prNumber := 1
                    problems := [] }] }]
                problems := [] }]
              problems := [] }) = .ok c' ∧
      renderLines c' = renderLines {
              path := examplePath
              comments := []
              legacyContents := []
              releases := [{
                line := str "## Unreleased"
                fixed := str "## Unreleased"
                version := str "Unreleased"
                changeTypes := [{
                  name := str "Bug Fixes"
                  fixed := str "### Bug Fixes"
                  problems := []
                  entries := [{
                    category := str "cli"
                    fixed := str "- (cli) [#1](https://github.com/MalteHerrmann/changelog-utils/pull/1) Fix A."
                    prNumber := 1
                    problems := [] }] }]
                problems := [] }]
              problems := [] } ∧
      getFixedContents c' = getFixedContents {
              path := examplePath
              comments := []
              legacyContents := []
              releases := [{
                line := str "## Unreleased"
                fixed := str "## Unreleased"
                version := str "Unreleased"
                changeTypes := [{
                  name := str "Bug Fixes"
                  fixed := str "### Bug Fixes"
                  problems := []
                  entries := [{
                    category := str "cli"
                    fixed := str "- (cli) [#1](https://github.com/MalteHerrmann/changelog-utils/pull/1) Fix A."
                    prNumber := 1
                    problems := [] }] }]
                problems := [] }]
              problems := [] } :=
  ⟨by decide, by decide,
    claim1_fix_idempotent exampleConfig examplePath
      [str "## Unreleased", str "### Bug Fixes",
       str "- (cli) [#1](https://github.com/MalteHerrmann/changelog-utils/pull/1) Fix A."]
      _ (by decide) (by decide)⟩
